import Mathlib

/-!
# Verification of the HF-WEB inventory-to-sale allocation ledger

Shallow embedding of the stock-allocation core of the repository
(`backend/app/services/sales.py`, `backend/app/services/product.py`,
models in `backend/app/models/sale.py` and `backend/app/models/stock.py`).

Modelling conventions:
* Python (unbounded) `int` columns are `Int`.
* `Numeric(…, 2)` money columns are `ℚ`; `Decimal.quantize(Decimal("0.01"))`
  with the default `ROUND_HALF_EVEN` is the executable `quantize2` below.
* A SQLAlchemy table is a `List` of row structures.  The global list of
  `StockPurchase` rows is kept in `(purchase_date ASC, id ASC)` order —
  the order every query in the service requests; the `DESC` query used by
  `_restore_stock` is the reverse of that list.  A query filtered by
  `product_id` is a `List.filter` of the global list, so the service loops
  are modelled as walks over the global list that only touch matching rows.
* Raised exceptions become `Except.error` values of the inductive
  `ServiceError`; a mutation that raises is rolled back by SQLAlchemy, so
  an `.error` result carries no post-state (nothing was persisted).
* Python dicts keyed by the `item_ref` strings `f"product:{id}"` /
  `f"manual:{name}"` are association lists keyed by the (injective)
  inductive `ItemRef`.
-/

/-- `StockPurchase` row (`backend/app/models/stock.py`): one purchased lot.
Fields not read by the ledger logic (description, code, prices…) are omitted;
`purchaseDate` is the `Date` column encoded as an integer day key, used only
through the (already applied) sort order of the lot list. -/
structure StockPurchase where
  id : Int
  productId : Option Int
  purchaseDate : Int
  quantity : Int
  outQuantity : Int
deriving Repr, DecidableEq

/-- `SaleItem` row (`backend/app/models/sale.py`). -/
structure SaleItemRow where
  productId : Option Int
  manualProductName : Option String
  quantity : Int
  deliveredQuantity : Int
  isPaid : Bool
  unitPrice : ℚ
  totalPrice : ℚ
deriving Repr, DecidableEq

/-- `Sale` row (`backend/app/models/sale.py`) together with its ORM
`items` relationship.  `createdAt` is the `created_at` timestamp encoded as
an integer, used only for the reconciliation sort order. -/
structure SaleRow where
  id : Int
  createdAt : Int
  customerName : Option String
  notes : Option String
  installments : Option Int
  seller : Option String
  delivered : Bool
  paid : Bool
  totalAmount : ℚ
  deliveredAmount : ℚ
  paidAmount : ℚ
  items : List SaleItemRow
deriving Repr, DecidableEq

/-- The slice of a `Product` row read by `get_stock_summary_detailed`. -/
structure ProductRow where
  id : Int
  originalPrice : ℚ
deriving Repr, DecidableEq

/-- The distinct raise sites of `app.core.exceptions.ValidationError` /
`NotFoundError` inside the sales service, as an inductive error type. -/
inductive ServiceError where
  /-- `ValidationError("Stock insuficiente para producto {id}. Disponible: {available}")` -/
  | insufficientStock (productId available requested : Int)
  /-- `ValidationError("No se pudo descontar el stock completo")` -/
  | incompleteDeduction
  /-- `ValidationError("No se pudo revertir el stock completo")` -/
  | incompleteRestore
  /-- `ValidationError("La venta debe tener items")` -/
  | emptyItems
  /-- `NotFoundError("Product", id)` -/
  | productNotFound (productId : Int)
  /-- `ValidationError("El item manual requiere nombre de producto")` -/
  | manualNameRequired
  /-- `ValidationError("No se permite repetir el mismo producto en la venta")` -/
  | duplicateItem
  /-- `ValidationError("La cantidad debe ser mayor a 0")` -/
  | nonPositiveQuantity
  /-- `ValidationError("El precio unitario debe ser mayor a 0")` -/
  | nonPositiveUnitPrice
deriving Repr, DecidableEq

deriving instance DecidableEq for Except

/-- Round a rational to an integer with `ROUND_HALF_EVEN` (the
`decimal` module default used by `Decimal.quantize`). -/
def roundHalfEven (q : ℚ) : ℤ :=
  if q - ⌊q⌋ < 1 / 2 then ⌊q⌋
  else if 1 / 2 < q - ⌊q⌋ then ⌊q⌋ + 1
  else if ⌊q⌋ % 2 = 0 then ⌊q⌋ else ⌊q⌋ + 1

/-- `Decimal.quantize(Decimal("0.01"))`: round to cent precision. -/
def quantize2 (q : ℚ) : ℚ := (roundHalfEven (q * 100) : ℚ) / 100

/-- `q` is representable with two decimal digits (every `Numeric(…, 2)`
column value is). -/
def CentValued (q : ℚ) : Prop := ∃ n : ℤ, q = (n : ℚ) / 100

/-- The lot list is in the `(purchase_date ASC, id ASC)` order that every
lot query of the service requests (ids are unique, so this is a strict
total order and the `DESC` query is the exact reverse). -/
def lotsSortedAsc : List StockPurchase → Bool
  | [] => true
  | [_] => true
  | a :: b :: rest =>
    (decide (a.purchaseDate < b.purchaseDate) ||
      (decide (a.purchaseDate = b.purchaseDate) && decide (a.id < b.id))) &&
    lotsSortedAsc (b :: rest)

/-! ## Allocator (`SalesService._get_available_stock`, `_deduct_stock`,
`_restore_stock`) -/

/-- `SalesService._get_available_stock`: `Σ (quantity - out_quantity)` over
the product's lots (`0` for a `None` product id). -/
def get_available_stock (productId : Option Int) (lots : List StockPurchase) : Int :=
  match productId with
  | none => 0
  | some pid =>
    (((lots.filter (fun l => l.productId = some pid)).map
      (fun l => l.quantity - l.outQuantity)).sum)

/-- The `for purchase in purchases:` loop body of `_deduct_stock`, walking the
(ASC-ordered) lot list and touching only lots of `pid`: break once
`remaining <= 0`, skip lots with no availability, otherwise consume
`min(available_in_purchase, remaining)`.  Returns the updated list and the
final `remaining`. -/
def deductWalk (pid : Int) : List StockPurchase → Int → List StockPurchase × Int
  | [], remaining => ([], remaining)
  | l :: ls, remaining =>
    if l.productId = some pid then
      if remaining ≤ 0 then (l :: ls, remaining)
      else if l.quantity - l.outQuantity ≤ 0 then
        let p := deductWalk pid ls remaining
        (l :: p.1, p.2)
      else
        let d := min (l.quantity - l.outQuantity) remaining
        let p := deductWalk pid ls (remaining - d)
        ({ l with outQuantity := l.outQuantity + d } :: p.1, p.2)
    else
      let p := deductWalk pid ls remaining
      (l :: p.1, p.2)

/-- `SalesService._deduct_stock` (FIFO deduction). -/
def deduct_stock (productId : Option Int) (lots : List StockPurchase)
    (quantity : Int) : Except ServiceError (List StockPurchase) :=
  if quantity ≤ 0 then .ok lots
  else match productId with
  | none => .ok lots
  | some pid =>
    let available := get_available_stock (some pid) lots
    if available < quantity then
      .error (.insufficientStock pid available quantity)
    else
      let w := deductWalk pid lots quantity
      if 0 < w.2 then .error .incompleteDeduction else .ok w.1

/-- The loop body of `_restore_stock`, walking the `DESC`-ordered lot list
(i.e. the reverse of the global list): break once `remaining <= 0`, skip
lots with `out_quantity <= 0`, otherwise give back
`min(out_quantity, remaining)`. -/
def restoreWalk (pid : Int) : List StockPurchase → Int → List StockPurchase × Int
  | [], remaining => ([], remaining)
  | l :: ls, remaining =>
    if l.productId = some pid then
      if remaining ≤ 0 then (l :: ls, remaining)
      else if l.outQuantity ≤ 0 then
        let p := restoreWalk pid ls remaining
        (l :: p.1, p.2)
      else
        let d := min l.outQuantity remaining
        let p := restoreWalk pid ls (remaining - d)
        ({ l with outQuantity := l.outQuantity - d } :: p.1, p.2)
    else
      let p := restoreWalk pid ls remaining
      (l :: p.1, p.2)

/-- `SalesService._restore_stock` (LIFO restore): the query orders
`(purchase_date DESC, id DESC)`, i.e. walks the reversed global list. -/
def restore_stock (productId : Option Int) (lots : List StockPurchase)
    (quantity : Int) : Except ServiceError (List StockPurchase) :=
  if quantity ≤ 0 then .ok lots
  else match productId with
  | none => .ok lots
  | some pid =>
    let w := restoreWalk pid lots.reverse quantity
    if 0 < w.2 then .error .incompleteRestore else .ok w.1.reverse

/-! ## Item normalisation (`SalesService._normalize_items`) -/

/-- The `item_ref` strings `f"product:{product.id}"` / `f"manual:{name}"`,
as an inductive (the two string families are disjoint and each injective). -/
inductive ItemRef where
  | product : Int → ItemRef
  | manual : String → ItemRef
deriving Repr, DecidableEq

/-- `dict.get(ref)` on the delivery/payment target dicts. -/
def refLookup (m : List (ItemRef × Bool)) (r : ItemRef) : Option Bool :=
  match m with
  | [] => none
  | (k, v) :: rest => if k = r then some v else refLookup rest r

/-- One raw element of the `items` payload accepted by
`create_sale`/`update_sale` (the `getattr(item, …, None)` accesses in
`_normalize_items`). -/
structure RawItem where
  productId : Option Int
  productName : Option String
  quantity : Int
  unitPrice : ℚ
  delivered : Option Bool
  paid : Option Bool
  deliveredQuantity : Option Int
deriving Repr, DecidableEq

/-- One element of the normalised `items` list built by `_normalize_items`. -/
structure NormalizedItem where
  itemRef : ItemRef
  productId : Option Int
  manualProductName : Option String
  quantity : Int
  deliveredQuantity : Int
  isPaid : Bool
  unitPrice : ℚ
  totalPrice : ℚ
deriving Repr, DecidableEq

/-- The product/manual-name resolution at the top of the
`_normalize_items` loop body: a catalog item must exist, a manual item must
carry a non-empty (stripped) name; yields the `item_ref`, the product id
and the stored manual name. -/
def resolveItemRef (products : List Int) (item : RawItem) :
    Except ServiceError (ItemRef × Option Int × Option String) :=
  match item.productId with
  | some pid =>
    if pid ∈ products then .ok (.product pid, some pid, none)
    else .error (.productNotFound pid)
  | none =>
    let pname := (item.productName.getD "").trim
    if pname = "" then .error .manualNameRequired
    else .ok (.manual pname.toLower, none, some pname)

/-- The `delivered_flag` cascade of `_normalize_items`: forced value, else
the raw `delivered` flag, else `delivered_quantity > 0`, else `False`. -/
def deliveredFlagOf (forceDelivered : Option Bool) (item : RawItem) : Bool :=
  match forceDelivered with
  | some b => b
  | none =>
    match item.delivered with
    | some b => b
    | none =>
      match item.deliveredQuantity with
      | some dq => decide (0 < dq)
      | none => false

/-- The `paid_flag` cascade of `_normalize_items`. -/
def paidFlagOf (forcePaid : Option Bool) (item : RawItem) : Bool :=
  match forcePaid with
  | some b => b
  | none => item.paid.getD false

/-- The normalised dict appended by `_normalize_items` for one raw item:
`delivered_qty = qty if delivered_flag else 0`,
`total_price = (unit_price * qty).quantize("0.01")`. -/
def normalizedOf (forceDelivered forcePaid : Option Bool)
    (ref : ItemRef) (pid : Option Int) (manualName : Option String)
    (item : RawItem) : NormalizedItem :=
  { itemRef := ref, productId := pid, manualProductName := manualName,
    quantity := item.quantity,
    deliveredQuantity := if deliveredFlagOf forceDelivered item then item.quantity else 0,
    isPaid := paidFlagOf forcePaid item,
    unitPrice := item.unitPrice,
    totalPrice := quantize2 (item.unitPrice * item.quantity) }

/-- The `for item in raw_items:` loop of `_normalize_items`.  `products` is
the set of catalog product ids (the `Product.id == product_id` lookup);
`seen` is `seen_item_refs`.  Returns the normalised items and the running
`total_amount`. -/
def normalizeLoop (products : List Int) (forceDelivered forcePaid : Option Bool)
    (seen : List ItemRef) :
    List RawItem → Except ServiceError (List NormalizedItem × ℚ)
  | [] => .ok ([], 0)
  | item :: rest =>
    match resolveItemRef products item with
    | .error e => .error e
    | .ok (ref, pid, manualName) =>
      if ref ∈ seen then .error .duplicateItem
      else if item.quantity ≤ 0 then .error .nonPositiveQuantity
      else if item.unitPrice ≤ 0 then .error .nonPositiveUnitPrice
      else
        let itm := normalizedOf forceDelivered forcePaid ref pid manualName item
        match normalizeLoop products forceDelivered forcePaid (ref :: seen) rest with
        | .error e => .error e
        | .ok (items, total) => .ok (itm :: items, itm.totalPrice + total)

/-- `SalesService._normalize_items`. -/
def normalize_items (products : List Int) (rawItems : List RawItem)
    (forceDelivered forcePaid : Option Bool) :
    Except ServiceError (List NormalizedItem × ℚ) :=
  if rawItems = [] then .error .emptyItems
  else
    match normalizeLoop products forceDelivered forcePaid [] rawItems with
    | .error e => .error e
    | .ok (items, total) => .ok (items, quantize2 total)

/-! ## Sale aggregate synchroniser (`SalesService._sync_sale_state`) -/

/-- `delivered_full` of one line inside `_sync_sale_state` /
`_apply_item_states`: `qty > 0 and delivered_quantity >= qty`. -/
def deliveredFull (item : SaleItemRow) : Bool :=
  decide (0 < item.quantity) && decide (item.quantity ≤ item.deliveredQuantity)

/-- `Decimal(str(item.total_price or 0)).quantize(Decimal("0.01"))`. -/
def lineTotal (item : SaleItemRow) : ℚ := quantize2 item.totalPrice

/-- `SalesService._sync_sale_state`: recompute the sale-level aggregates
from the lines. -/
def sync_sale_state (sale : SaleRow) : SaleRow :=
  { sale with
    deliveredAmount :=
      quantize2 (((sale.items.filter deliveredFull).map lineTotal).sum),
    paidAmount :=
      quantize2 (((sale.items.filter (·.isPaid)).map lineTotal).sum),
    delivered := !sale.items.isEmpty && sale.items.all deliveredFull,
    paid := !sale.items.isEmpty && sale.items.all (·.isPaid) }

/-! ## Sale line state machine (`SalesService._apply_item_states`) -/

/-- The `item_ref` of a stored line, as computed inside
`_apply_item_states` and `update_sale`. -/
def itemRefOf (item : SaleItemRow) : ItemRef :=
  match item.productId with
  | some pid => .product pid
  | none => .manual ((item.manualProductName.getD "").trim.toLower)

/-- `current_delivered` of a line inside `_apply_item_states`:
`qty > 0 and current_qty >= qty`. -/
def currentDelivered (item : SaleItemRow) : Bool :=
  decide (0 < item.quantity) && decide (item.quantity ≤ item.deliveredQuantity)

/-- `target_delivered` of a line inside `_apply_item_states`:
`delivery_targets_by_ref.get(item_ref, current_delivered)` when the dict is
given, else the current delivered state. -/
def targetDelivered (deliveryTargets : Option (List (ItemRef × Bool)))
    (item : SaleItemRow) : Bool :=
  match deliveryTargets with
  | none => currentDelivered item
  | some m => (refLookup m (itemRefOf item)).getD (currentDelivered item)

/-- `target_qty = qty if target_delivered else 0` inside `_apply_item_states`. -/
def targetQty (deliveryTargets : Option (List (ItemRef × Bool)))
    (item : SaleItemRow) : Int :=
  if targetDelivered deliveryTargets item then item.quantity else 0

/-- The new `is_paid` of a line inside `_apply_item_states`:
`paid_targets_by_ref.get(item_ref, item.is_paid)` when the dict is given. -/
def newPaid (paidTargets : Option (List (ItemRef × Bool)))
    (item : SaleItemRow) : Bool :=
  match paidTargets with
  | none => item.isPaid
  | some m => (refLookup m (itemRefOf item)).getD item.isPaid

/-- The stock movement of one line inside `_apply_item_states`:
`delta = target_qty - current_qty`; deduct a positive delta, restore a
negative one. -/
def applyStock (deliveryTargets : Option (List (ItemRef × Bool)))
    (item : SaleItemRow) (lots : List StockPurchase) :
    Except ServiceError (List StockPurchase) :=
  let delta := targetQty deliveryTargets item - item.deliveredQuantity
  if 0 < delta then deduct_stock item.productId lots delta
  else if delta < 0 then restore_stock item.productId lots (-delta)
  else .ok lots

/-- The `for item in sale.items:` loop of `_apply_item_states`: per line,
move stock by `delta`, set `delivered_quantity = target_qty`, resolve the
paid flag, and continue with the updated lots. -/
def applyLoop (deliveryTargets paidTargets : Option (List (ItemRef × Bool))) :
    List SaleItemRow → List StockPurchase →
    Except ServiceError (List SaleItemRow × List StockPurchase)
  | [], lots => .ok ([], lots)
  | item :: rest, lots =>
    match applyStock deliveryTargets item lots with
    | .error e => .error e
    | .ok lots1 =>
      match applyLoop deliveryTargets paidTargets rest lots1 with
      | .error e => .error e
      | .ok (restItems, lots2) =>
        .ok ({ item with
                deliveredQuantity := targetQty deliveryTargets item,
                isPaid := newPaid paidTargets item } :: restItems,
          lots2)

/-- `SalesService._apply_item_states` (per-line application followed by
`_sync_sale_state`). -/
def apply_item_states (sale : SaleRow) (lots : List StockPurchase)
    (deliveryTargets paidTargets : Option (List (ItemRef × Bool))) :
    Except ServiceError (SaleRow × List StockPurchase) :=
  match applyLoop deliveryTargets paidTargets sale.items lots with
  | .error e => .error e
  | .ok (items', lots') => .ok (sync_sale_state { sale with items := items' }, lots')

/-! ## Sale mutations (`create_sale`, `update_sale`, `delete_sale`) -/

/-- The payload of `create_sale` (schema `SaleCreate`). -/
structure CreateSaleData where
  customerName : Option String
  notes : Option String
  installments : Option Int
  seller : Option String
  delivered : Bool
  paid : Bool
  items : List RawItem
deriving Repr, DecidableEq

/-- A fresh `SaleItem` row as inserted by `create_sale`/`update_sale`:
`delivered_quantity = 0`, `is_paid = False`. -/
def freshSaleItem (item : NormalizedItem) : SaleItemRow :=
  { productId := item.productId,
    manualProductName := item.manualProductName,
    quantity := item.quantity,
    deliveredQuantity := 0,
    isPaid := false,
    unitPrice := item.unitPrice,
    totalPrice := item.totalPrice }

/-- The delivery-target dict `{ref: delivered_quantity > 0}` built from the
normalised items in `create_sale`/`update_sale`. -/
def deliveryTargetsOf (items : List NormalizedItem) : List (ItemRef × Bool) :=
  items.map (fun it => (it.itemRef, decide (0 < it.deliveredQuantity)))

/-- The payment-target dict `{ref: is_paid}` built from the normalised
items in `create_sale`/`update_sale`. -/
def paidTargetsOf (items : List NormalizedItem) : List (ItemRef × Bool) :=
  items.map (fun it => (it.itemRef, it.isPaid))

/-- `SalesService.create_sale`.  `products` is the catalog id set; `nextId`
and `createdAt` stand for the DB-assigned primary key and timestamp.
Returns the committed sale row and the updated lot list. -/
def create_sale (products : List Int) (lots : List StockPurchase)
    (nextId createdAt : Int) (data : CreateSaleData) :
    Except ServiceError (SaleRow × List StockPurchase) :=
  match normalize_items products data.items
      (if data.delivered then some true else none)
      (if data.paid then some true else none) with
  | .error e => .error e
  | .ok (items, totalAmount) =>
    let sale : SaleRow :=
      { id := nextId, createdAt := createdAt,
        customerName := data.customerName, notes := data.notes,
        installments := data.installments, seller := data.seller,
        delivered := data.delivered, paid := data.paid,
        totalAmount := totalAmount,
        deliveredAmount := 0, paidAmount := 0,
        items := items.map freshSaleItem }
    apply_item_states sale lots
      (some (deliveryTargetsOf items)) (some (paidTargetsOf items))

/-- The restore loop shared by `update_sale` (line replacement) and
`delete_sale`: give back each line's delivered quantity. -/
def restoreItemsLoop : List SaleItemRow → List StockPurchase →
    Except ServiceError (List StockPurchase)
  | [], lots => .ok lots
  | item :: rest, lots =>
    if 0 < item.deliveredQuantity then
      match restore_stock item.productId lots item.deliveredQuantity with
      | .error e => .error e
      | .ok lots1 => restoreItemsLoop rest lots1
    else restoreItemsLoop rest lots

/-- The optional fields of `update_sale`. -/
structure UpdateSaleData where
  delivered : Option Bool
  paid : Option Bool
  customerName : Option String
  notes : Option String
  installments : Option Int
  seller : Option String
  items : Option (List RawItem)
deriving Repr, DecidableEq

/-- `SalesService.update_sale` on an already-fetched sale row (the
`Sale.id == sale_id` lookup and its `NotFoundError` are outside the model).
Either replaces the whole line set (restoring delivered stock first) or
routes sale-wide delivered/paid toggles through `_apply_item_states`. -/
def update_sale (products : List Int) (sale : SaleRow)
    (lots : List StockPurchase) (u : UpdateSaleData) :
    Except ServiceError (SaleRow × List StockPurchase) :=
  let sale :=
    { sale with
      customerName := match u.customerName with
        | some c => some c
        | none => sale.customerName,
      notes := match u.notes with
        | some n => some n
        | none => sale.notes,
      installments := match u.installments with
        | some i => some i
        | none => sale.installments,
      seller := match u.seller with
        | some s => some s
        | none => sale.seller }
  match u.items with
  | some rawItems =>
    match normalize_items products rawItems
        (if u.delivered = some true then some true else none)
        (if u.paid = some true then some true else none) with
    | .error e => .error e
    | .ok (normalized, newTotal) =>
      match restoreItemsLoop sale.items lots with
      | .error e => .error e
      | .ok lots1 =>
        let sale :=
          { sale with items := normalized.map freshSaleItem, totalAmount := newTotal }
        apply_item_states sale lots1
          (some (deliveryTargetsOf normalized)) (some (paidTargetsOf normalized))
  | none =>
    if u.delivered.isSome || u.paid.isSome then
      apply_item_states sale lots
        (u.delivered.map (fun b => sale.items.map (fun it => (itemRefOf it, b))))
        (u.paid.map (fun b => sale.items.map (fun it => (itemRefOf it, b))))
    else
      .ok (sync_sale_state sale, lots)

/-- `SalesService.delete_sale` on an already-fetched sale row: restore every
line's delivered quantity; the sale row and its lines are then removed
(cascade), so only the updated lot list remains. -/
def delete_sale (sale : SaleRow) (lots : List StockPurchase) :
    Except ServiceError (List StockPurchase) :=
  restoreItemsLoop sale.items lots

/-! ## Reconciliation engine (`SalesService.reconcile_delivered_stock`) -/

/-- `out_quantity := 0`, the bulk reset applied to every lot at the start of
the reconciliation run. -/
def resetOut (l : StockPurchase) : StockPurchase := { l with outQuantity := 0 }

/-- One entry of the `shortages` list (the formatted string
`"Venta #{sale.id}, producto #{item.product_id}: faltan {remaining} …"`,
modelled by its three data fields). -/
structure Shortage where
  saleId : Int
  productId : Int
  missing : Int
deriving Repr, DecidableEq

/-- The report returned by `reconcile_delivered_stock`. -/
structure ReconcileReport where
  salesProcessed : Nat
  unitsRequested : Int
  unitsDeducted : Int
  shortages : List Shortage
deriving Repr, DecidableEq

/-- The running state of the reconciliation pass. -/
structure ReconcileAcc where
  lots : List StockPurchase
  unitsRequested : Int
  unitsDeducted : Int
  shortages : List Shortage
deriving Repr, DecidableEq

/-- The `for item in sale.items:` loop of `reconcile_delivered_stock`:
skip manual lines and lines with no delivered units, otherwise replay a
FIFO deduction (same loop as `_deduct_stock`, without the availability
precheck) and record a shortage when lots ran out. -/
def reconcileItems (saleId : Int) : List SaleItemRow → ReconcileAcc → ReconcileAcc
  | [], acc => acc
  | item :: rest, acc =>
    match item.productId with
    | none => reconcileItems saleId rest acc
    | some pid =>
      let requested := item.deliveredQuantity
      if requested ≤ 0 then reconcileItems saleId rest acc
      else
        let w := deductWalk pid acc.lots requested
        reconcileItems saleId rest
          { lots := w.1,
            unitsRequested := acc.unitsRequested + requested,
            unitsDeducted := acc.unitsDeducted + (requested - w.2),
            shortages :=
              if 0 < w.2 then acc.shortages ++ [⟨saleId, pid, w.2⟩]
              else acc.shortages }

/-- The `for sale in sales:` loop of `reconcile_delivered_stock`: replay
each sale's items, then re-`_sync_sale_state` the sale. -/
def reconcileSales : List SaleRow → ReconcileAcc → List SaleRow × ReconcileAcc
  | [], acc => ([], acc)
  | sale :: rest, acc =>
    let acc1 := reconcileItems sale.id sale.items acc
    let r := reconcileSales rest acc1
    (sync_sale_state sale :: r.1, r.2)

/-- `SalesService.reconcile_delivered_stock`: reset every lot's
`out_quantity` to 0, then replay all sales (the list is the
`(created_at ASC, id ASC)` query result) chronologically with FIFO
deductions.  Returns the re-synced sales, the rebuilt lots and the report. -/
def reconcile_delivered_stock (sales : List SaleRow) (lots : List StockPurchase) :
    List SaleRow × List StockPurchase × ReconcileReport :=
  let acc0 : ReconcileAcc :=
    { lots := lots.map resetOut,
      unitsRequested := 0, unitsDeducted := 0, shortages := [] }
  let r := reconcileSales sales acc0
  (r.1, r.2.lots,
    { salesProcessed := sales.length,
      unitsRequested := r.2.unitsRequested,
      unitsDeducted := r.2.unitsDeducted,
      shortages := r.2.shortages })

/-! ## Stock summary (`ProductService.get_stock_summary_detailed`) -/

/-- One value of the map returned by `get_stock_summary_detailed`. -/
structure StockSummaryRow where
  stockQty : Int
  reservedQty : Int
  originalPrice : ℚ
  reservedSaleValue : ℚ
deriving Repr, DecidableEq

/-- The grouped `stock_map` query: `Σ (quantity - out_quantity)` over the
product's lots (`dict.get(pid, 0)` default folded in). -/
def stockQtyOf (lots : List StockPurchase) (pid : Int) : Int :=
  ((lots.filter (fun l => l.productId = some pid)).map
    (fun l => l.quantity - l.outQuantity)).sum

/-- The grouped `reserved_map` query:
`Σ greatest(quantity - delivered_quantity, 0)` over the product's lines. -/
def reservedQtyOf (saleItems : List SaleItemRow) (pid : Int) : Int :=
  ((saleItems.filter (fun it => it.productId = some pid)).map
    (fun it => max (it.quantity - it.deliveredQuantity) 0)).sum

/-- The grouped `reserved_sale_map` query:
`Σ greatest(quantity - delivered_quantity, 0) * unit_price`. -/
def reservedSaleValueOf (saleItems : List SaleItemRow) (pid : Int) : ℚ :=
  ((saleItems.filter (fun it => it.productId = some pid)).map
    (fun it => ((max (it.quantity - it.deliveredQuantity) 0 : Int) : ℚ) * it.unitPrice)).sum

/-- The `price_map` lookup: the product's `original_price or 0`. -/
def originalPriceOf (products : List ProductRow) (pid : Int) : ℚ :=
  match products.find? (fun p => p.id = pid) with
  | some p => p.originalPrice
  | none => 0

/-- `ProductService.get_stock_summary_detailed`: a read-only aggregation,
returned as an association list keyed by product id (the Python dict, whose
keys are `sorted(set(product_ids))`). -/
def get_stock_summary_detailed (products : List ProductRow)
    (lots : List StockPurchase) (saleItems : List SaleItemRow)
    (productIds : List Int) : List (Int × StockSummaryRow) :=
  let uniqueIds := productIds.dedup.mergeSort (fun a b => a ≤ b)
  uniqueIds.map (fun pid =>
    (pid,
      { stockQty := stockQtyOf lots pid,
        reservedQty := reservedQtyOf saleItems pid,
        originalPrice := originalPriceOf products pid,
        reservedSaleValue := reservedSaleValueOf saleItems pid }))

/-! ## Invariant vocabulary -/

/-- `Σ out_quantity` over the product's lots. -/
def lotOutSum (pid : Int) (lots : List StockPurchase) : Int :=
  ((lots.filter (fun l => l.productId = some pid)).map (·.outQuantity)).sum

/-- `Σ delivered_quantity` over the lines of a list of items referencing
the product. -/
def itemsDeliveredSum (pid : Int) (items : List SaleItemRow) : Int :=
  ((items.filter (fun it => it.productId = some pid)).map (·.deliveredQuantity)).sum

/-- `Σ delivered_quantity` over all lines of all sales referencing the
product. -/
def lineDeliveredSum (pid : Int) (sales : List SaleRow) : Int :=
  itemsDeliveredSum pid (sales.flatMap (·.items))

/-- Global invariant 1 of the spec: per product, lots' `Σ out_quantity`
matches the sales' `Σ delivered_quantity`. -/
def stockInvariant (sales : List SaleRow) (lots : List StockPurchase) : Prop :=
  ∀ pid : Int, lotOutSum pid lots = lineDeliveredSum pid sales

/-- Lot well-formedness: `0 ≤ out_quantity ≤ quantity`. -/
def lotWF (l : StockPurchase) : Prop :=
  0 ≤ l.outQuantity ∧ l.outQuantity ≤ l.quantity

/-- Line well-formedness: `0 ≤ delivered_quantity ≤ quantity`. -/
def lineWF (it : SaleItemRow) : Prop :=
  0 ≤ it.deliveredQuantity ∧ it.deliveredQuantity ≤ it.quantity

instance (l : StockPurchase) : Decidable (lotWF l) := by
  unfold lotWF
  infer_instance

instance (it : SaleItemRow) : Decidable (lineWF it) := by
  unfold lineWF
  infer_instance

/-! ## Spec-side comparison definitions (for the refinement claims C2/C3) -/

/-- Modelled from the spec sentence for `deduct` (§4.1): "walks lots ordered
`(purchase_date ASC, lot_id ASC)` — oldest first — consuming
`min(lot.available, remaining)` from each by incrementing `out_quantity`,
until `remaining == 0`".  Stated on the ASC-ordered lot list, touching
the product's lots only. -/
def specFifoWalk (pid : Int) : List StockPurchase → Int → List StockPurchase
  | [], _ => []
  | l :: ls, r =>
    if r ≤ 0 then l :: ls
    else if l.productId = some pid then
      let d := min (l.quantity - l.outQuantity) r
      { l with outQuantity := l.outQuantity + d } :: specFifoWalk pid ls (r - d)
    else l :: specFifoWalk pid ls r

/-- Modelled from the spec sentence for `restore` (§4.1): "symmetric
traversal ordered `(purchase_date DESC, lot_id DESC)` — most-recently-consumed
lots first — decrementing `out_quantity` by `min(lot.out_quantity, remaining)`".
Stated on a DESC-ordered lot list. -/
def specLifoWalk (pid : Int) : List StockPurchase → Int → List StockPurchase
  | [], _ => []
  | l :: ls, r =>
    if r ≤ 0 then l :: ls
    else if l.productId = some pid then
      let d := min l.outQuantity r
      { l with outQuantity := l.outQuantity - d } :: specLifoWalk pid ls (r - d)
    else l :: specLifoWalk pid ls r

/-! ## Arithmetic of `quantize2` -/

theorem roundHalfEven_intCast (n : ℤ) : roundHalfEven (n : ℚ) = n := by
  unfold roundHalfEven
  rw [Int.floor_intCast]
  norm_num

theorem quantize2_centValued {q : ℚ} (h : CentValued q) : quantize2 q = q := by
  obtain ⟨n, rfl⟩ := h
  unfold quantize2
  have h100 : ((n : ℚ) / 100) * 100 = (n : ℚ) := by
    field_simp
  rw [h100, roundHalfEven_intCast]

theorem quantize2_zero : quantize2 0 = 0 :=
  quantize2_centValued ⟨0, by norm_num⟩

theorem quantize2_one : quantize2 1 = 1 :=
  quantize2_centValued ⟨100, by norm_num⟩

theorem quantize2_two : quantize2 2 = 2 :=
  quantize2_centValued ⟨200, by norm_num⟩

theorem CentValued.zero : CentValued 0 := ⟨0, by norm_num⟩

theorem CentValued.add {a b : ℚ} (ha : CentValued a) (hb : CentValued b) :
    CentValued (a + b) := by
  obtain ⟨m, rfl⟩ := ha
  obtain ⟨n, rfl⟩ := hb
  exact ⟨m + n, by push_cast; ring⟩

theorem CentValued.list_sum {l : List ℚ} (h : ∀ q ∈ l, CentValued q) :
    CentValued l.sum := by
  induction l with
  | nil => simpa using CentValued.zero
  | cons a t ih =>
    rw [List.sum_cons]
    exact (h a (List.mem_cons_self a t)).add (ih fun q hq => h q (List.mem_cons_of_mem a hq))

/-! ## Lemmas on `deductWalk` -/

theorem deductWalk_nonpos (pid : Int) (lots : List StockPurchase) {r : Int}
    (h : r ≤ 0) : deductWalk pid lots r = (lots, r) := by
  induction lots with
  | nil => rfl
  | cons l ls ih =>
    by_cases hp : l.productId = some pid
    · simp [deductWalk, hp, h]
    · simp [deductWalk, hp, ih]

theorem deductWalk_remaining_nonneg (pid : Int) (lots : List StockPurchase)
    {r : Int} (h : 0 ≤ r) : 0 ≤ (deductWalk pid lots r).2 := by
  induction lots generalizing r with
  | nil => simpa [deductWalk]
  | cons l ls ih =>
    by_cases hp : l.productId = some pid
    · by_cases hr : r ≤ 0
      · simp [deductWalk, hp, hr, h]
      · by_cases ha : l.quantity - l.outQuantity ≤ 0
        · simpa [deductWalk, hp, hr, ha] using ih h
        · have hd : 0 ≤ r - min (l.quantity - l.outQuantity) r := by omega
          simpa [deductWalk, hp, hr, ha] using ih hd
    · simpa [deductWalk, hp] using ih h

theorem lotOutSum_nil (pid : Int) : lotOutSum pid [] = 0 := rfl

theorem lotOutSum_cons (pid : Int) (l : StockPurchase) (ls : List StockPurchase) :
    lotOutSum pid (l :: ls) =
      (if l.productId = some pid then l.outQuantity else 0) + lotOutSum pid ls := by
  by_cases hp : l.productId = some pid <;> simp [lotOutSum, List.filter_cons, hp]

theorem availSum_nil (pid : Int) : get_available_stock (some pid) [] = 0 := rfl

theorem availSum_cons (pid : Int) (l : StockPurchase) (ls : List StockPurchase) :
    get_available_stock (some pid) (l :: ls) =
      (if l.productId = some pid then l.quantity - l.outQuantity else 0) +
        get_available_stock (some pid) ls := by
  by_cases hp : l.productId = some pid <;>
    simp [get_available_stock, List.filter_cons, hp]

theorem itemsDeliveredSum_nil (pid : Int) : itemsDeliveredSum pid [] = 0 := rfl

theorem itemsDeliveredSum_cons (pid : Int) (it : SaleItemRow) (its : List SaleItemRow) :
    itemsDeliveredSum pid (it :: its) =
      (if it.productId = some pid then it.deliveredQuantity else 0) +
        itemsDeliveredSum pid its := by
  by_cases hp : it.productId = some pid <;>
    simp [itemsDeliveredSum, List.filter_cons, hp]

theorem lotOutSum_deductWalk (pid : Int) (lots : List StockPurchase) (r : Int) :
    lotOutSum pid (deductWalk pid lots r).1 =
      lotOutSum pid lots + (r - (deductWalk pid lots r).2) := by
  induction lots generalizing r with
  | nil => simp [deductWalk, lotOutSum]
  | cons l ls ih =>
    by_cases hp : l.productId = some pid
    · by_cases hr : r ≤ 0
      · simp [deductWalk, hp, hr]
      · by_cases ha : l.quantity - l.outQuantity ≤ 0
        · have h1 := ih r
          simp only [deductWalk, if_pos hp, if_neg hr, if_pos ha]
          rw [lotOutSum_cons, lotOutSum_cons]
          omega
        · have h1 := ih (r - min (l.quantity - l.outQuantity) r)
          simp only [deductWalk, if_pos hp, if_neg hr, if_neg ha]
          rw [lotOutSum_cons, lotOutSum_cons]
          simp only [hp, if_pos]
          omega
    · have h1 := ih r
      simp only [deductWalk, if_neg hp]
      rw [lotOutSum_cons, lotOutSum_cons]
      omega

theorem availSum_nonneg (pid : Int) (lots : List StockPurchase)
    (hwf : ∀ l ∈ lots, l.productId = some pid → l.outQuantity ≤ l.quantity) :
    0 ≤ get_available_stock (some pid) lots := by
  induction lots with
  | nil => simp [availSum_nil]
  | cons l ls ih =>
    rw [availSum_cons]
    have h1 := ih (fun x hx => hwf x (List.mem_cons_of_mem l hx))
    by_cases hp : l.productId = some pid
    · have := hwf l (List.mem_cons_self l ls) hp
      simp only [if_pos hp]
      omega
    · simp only [if_neg hp]
      omega

theorem lotOutSum_nonneg (pid : Int) (lots : List StockPurchase)
    (hwf : ∀ l ∈ lots, l.productId = some pid → 0 ≤ l.outQuantity) :
    0 ≤ lotOutSum pid lots := by
  induction lots with
  | nil => simp [lotOutSum_nil]
  | cons l ls ih =>
    rw [lotOutSum_cons]
    have h1 := ih (fun x hx => hwf x (List.mem_cons_of_mem l hx))
    by_cases hp : l.productId = some pid
    · have := hwf l (List.mem_cons_self l ls) hp
      simp only [if_pos hp]
      omega
    · simp only [if_neg hp]
      omega

theorem filter_deductWalk_ne (pid p' : Int) (lots : List StockPurchase) (r : Int)
    (hne : p' ≠ pid) :
    ((deductWalk pid lots r).1).filter (fun l => l.productId = some p') =
      lots.filter (fun l => l.productId = some p') := by
  induction lots generalizing r with
  | nil => simp [deductWalk]
  | cons l ls ih =>
    by_cases hp : l.productId = some pid
    · have hne' : ¬ l.productId = some p' := by
        rw [hp]; intro hc; exact hne (by injection hc; omega)
      by_cases hr : r ≤ 0
      · simp [deductWalk, hp, hr]
      · by_cases ha : l.quantity - l.outQuantity ≤ 0
        · simp only [deductWalk, if_pos hp, if_neg hr, if_pos ha]
          simp [List.filter_cons, hne', ih]
        · have hpp : ¬ (pid = p') := fun h => hne h.symm
          simp only [deductWalk, if_pos hp, if_neg hr, if_neg ha]
          simp [List.filter_cons, hne', hpp, ih]
    · simp only [deductWalk, if_neg hp]
      by_cases hq : l.productId = some p'
      · simp [List.filter_cons, hq, ih]
      · simp [List.filter_cons, hq, ih]

theorem lotOutSum_deductWalk_ne (pid p' : Int) (lots : List StockPurchase) (r : Int)
    (hne : p' ≠ pid) :
    lotOutSum p' (deductWalk pid lots r).1 = lotOutSum p' lots := by
  unfold lotOutSum
  rw [filter_deductWalk_ne pid p' lots r hne]

theorem deductWalk_wf (pid : Int) (lots : List StockPurchase) (r : Int)
    (hwf : ∀ l ∈ lots, lotWF l) :
    ∀ l ∈ (deductWalk pid lots r).1, lotWF l := by
  induction lots generalizing r with
  | nil => simp [deductWalk]
  | cons l ls ih =>
    have hl := hwf l (List.mem_cons_self l ls)
    have hls : ∀ x ∈ ls, lotWF x := fun x hx => hwf x (List.mem_cons_of_mem l hx)
    by_cases hp : l.productId = some pid
    · by_cases hr : r ≤ 0
      · simpa [deductWalk, hp, hr] using hwf
      · by_cases ha : l.quantity - l.outQuantity ≤ 0
        · simp only [deductWalk, if_pos hp, if_neg hr, if_pos ha]
          intro x hx
          rcases List.mem_cons.1 hx with h | h
          · exact h ▸ hl
          · exact ih r hls x h
        · simp only [deductWalk, if_pos hp, if_neg hr, if_neg ha]
          intro x hx
          rcases List.mem_cons.1 hx with h | h
          · subst h
            rcases hl with ⟨h1, h2⟩
            constructor <;> simp <;> omega
          · exact ih (r - min (l.quantity - l.outQuantity) r) hls x h
    · simp only [deductWalk, if_neg hp]
      intro x hx
      rcases List.mem_cons.1 hx with h | h
      · exact h ▸ hl
      · exact ih r hls x h

theorem deductWalk_remaining_eq (pid : Int) (lots : List StockPurchase) (r : Int)
    (hwf : ∀ l ∈ lots, l.productId = some pid → l.outQuantity ≤ l.quantity)
    (hr0 : 0 ≤ r) :
    (deductWalk pid lots r).2 = max (r - get_available_stock (some pid) lots) 0 := by
  induction lots generalizing r with
  | nil => simp [deductWalk, availSum_nil]; omega
  | cons l ls ih =>
    have hls : ∀ x ∈ ls, x.productId = some pid → x.outQuantity ≤ x.quantity :=
      fun x hx => hwf x (List.mem_cons_of_mem l hx)
    have havail := availSum_nonneg pid ls hls
    by_cases hp : l.productId = some pid
    · have hlq := hwf l (List.mem_cons_self l ls) hp
      by_cases hr : r ≤ 0
      · have : r = 0 := le_antisymm hr hr0
        subst this
        rw [availSum_cons]
        simp only [deductWalk, if_pos hp, if_pos (le_refl (0 : Int))]
        omega
      · by_cases ha : l.quantity - l.outQuantity ≤ 0
        · have h1 := ih r hls hr0
          simp only [deductWalk, if_pos hp, if_neg hr, if_pos ha]
          rw [availSum_cons]
          simp only [if_pos hp]
          omega
        · have hd0 : 0 ≤ r - min (l.quantity - l.outQuantity) r := by omega
          have h1 := ih (r - min (l.quantity - l.outQuantity) r) hls hd0
          simp only [deductWalk, if_pos hp, if_neg hr, if_neg ha]
          rw [availSum_cons]
          simp only [if_pos hp]
          omega
    · have h1 := ih r hls hr0
      simp only [deductWalk, if_neg hp]
      rw [availSum_cons]
      simp only [if_neg hp]
      omega

theorem deductWalk_map_reset (pid : Int) (lots : List StockPurchase) (r : Int) :
    ((deductWalk pid lots r).1).map resetOut = lots.map resetOut := by
  induction lots generalizing r with
  | nil => simp [deductWalk]
  | cons l ls ih =>
    by_cases hp : l.productId = some pid
    · by_cases hr : r ≤ 0
      · simp [deductWalk, hp, hr]
      · by_cases ha : l.quantity - l.outQuantity ≤ 0
        · simp only [deductWalk, if_pos hp, if_neg hr, if_pos ha]
          simp [ih]
        · simp only [deductWalk, if_pos hp, if_neg hr, if_neg ha]
          simp [ih, resetOut]
    · simp only [deductWalk, if_neg hp]
      simp [ih]

theorem deductWalk_eq_specFifo (pid : Int) (lots : List StockPurchase) (r : Int)
    (hwf : ∀ l ∈ lots, l.productId = some pid → l.outQuantity ≤ l.quantity) :
    (deductWalk pid lots r).1 = specFifoWalk pid lots r := by
  induction lots generalizing r with
  | nil => simp [deductWalk, specFifoWalk]
  | cons l ls ih =>
    have hls : ∀ x ∈ ls, x.productId = some pid → x.outQuantity ≤ x.quantity :=
      fun x hx => hwf x (List.mem_cons_of_mem l hx)
    by_cases hr : r ≤ 0
    · by_cases hp : l.productId = some pid
      · simp [deductWalk, specFifoWalk, hp, hr]
      · simp only [deductWalk, if_neg hp, specFifoWalk, if_pos hr]
        rw [deductWalk_nonpos pid ls hr]
    · by_cases hp : l.productId = some pid
      · by_cases ha : l.quantity - l.outQuantity ≤ 0
        · have hq := hwf l (List.mem_cons_self l ls) hp
          have hz : l.quantity - l.outQuantity = 0 := by omega
          have hmin : min (l.quantity - l.outQuantity) r = 0 := by
            rw [hz]; omega
          simp only [deductWalk, if_pos hp, if_neg hr, if_pos ha,
            specFifoWalk, if_neg hr, hmin]
          rw [ih r hls]
          have hleta : { l with outQuantity := l.outQuantity + 0 } = l := by
            cases l; simp
          rw [sub_zero, hleta]
        · simp only [deductWalk, if_pos hp, if_neg hr, if_neg ha,
            specFifoWalk, if_neg hr]
          rw [ih (r - min (l.quantity - l.outQuantity) r) hls]
      · simp only [deductWalk, if_neg hp, specFifoWalk, if_neg hr, if_neg hp]
        rw [ih r hls]

/-! ## Lemmas on `restoreWalk` -/

theorem restoreWalk_nonpos (pid : Int) (lots : List StockPurchase) {r : Int}
    (h : r ≤ 0) : restoreWalk pid lots r = (lots, r) := by
  induction lots with
  | nil => rfl
  | cons l ls ih =>
    by_cases hp : l.productId = some pid
    · simp [restoreWalk, hp, h]
    · simp [restoreWalk, hp, ih]

theorem restoreWalk_remaining_nonneg (pid : Int) (lots : List StockPurchase)
    {r : Int} (h : 0 ≤ r) : 0 ≤ (restoreWalk pid lots r).2 := by
  induction lots generalizing r with
  | nil => simpa [restoreWalk]
  | cons l ls ih =>
    by_cases hp : l.productId = some pid
    · by_cases hr : r ≤ 0
      · simp [restoreWalk, hp, hr, h]
      · by_cases ha : l.outQuantity ≤ 0
        · simpa [restoreWalk, hp, hr, ha] using ih h
        · have hd : 0 ≤ r - min l.outQuantity r := by omega
          simpa [restoreWalk, hp, hr, ha] using ih hd
    · simpa [restoreWalk, hp] using ih h

theorem lotOutSum_restoreWalk (pid : Int) (lots : List StockPurchase) (r : Int) :
    lotOutSum pid (restoreWalk pid lots r).1 =
      lotOutSum pid lots - (r - (restoreWalk pid lots r).2) := by
  induction lots generalizing r with
  | nil => simp [restoreWalk, lotOutSum]
  | cons l ls ih =>
    by_cases hp : l.productId = some pid
    · by_cases hr : r ≤ 0
      · simp [restoreWalk, hp, hr]
      · by_cases ha : l.outQuantity ≤ 0
        · have h1 := ih r
          simp only [restoreWalk, if_pos hp, if_neg hr, if_pos ha]
          rw [lotOutSum_cons, lotOutSum_cons]
          omega
        · have h1 := ih (r - min l.outQuantity r)
          simp only [restoreWalk, if_pos hp, if_neg hr, if_neg ha]
          rw [lotOutSum_cons, lotOutSum_cons]
          simp only [hp, if_pos]
          omega
    · have h1 := ih r
      simp only [restoreWalk, if_neg hp]
      rw [lotOutSum_cons, lotOutSum_cons]
      omega

theorem filter_restoreWalk_ne (pid p' : Int) (lots : List StockPurchase) (r : Int)
    (hne : p' ≠ pid) :
    ((restoreWalk pid lots r).1).filter (fun l => l.productId = some p') =
      lots.filter (fun l => l.productId = some p') := by
  induction lots generalizing r with
  | nil => simp [restoreWalk]
  | cons l ls ih =>
    by_cases hp : l.productId = some pid
    · have hne' : ¬ l.productId = some p' := by
        rw [hp]; intro hc; exact hne (by injection hc; omega)
      by_cases hr : r ≤ 0
      · simp [restoreWalk, hp, hr]
      · by_cases ha : l.outQuantity ≤ 0
        · simp only [restoreWalk, if_pos hp, if_neg hr, if_pos ha]
          simp [List.filter_cons, hne', ih]
        · have hpp : ¬ (pid = p') := fun h => hne h.symm
          simp only [restoreWalk, if_pos hp, if_neg hr, if_neg ha]
          simp [List.filter_cons, hne', hpp, ih]
    · simp only [restoreWalk, if_neg hp]
      by_cases hq : l.productId = some p'
      · simp [List.filter_cons, hq, ih]
      · simp [List.filter_cons, hq, ih]

theorem restoreWalk_wf (pid : Int) (lots : List StockPurchase) (r : Int)
    (hwf : ∀ l ∈ lots, lotWF l) :
    ∀ l ∈ (restoreWalk pid lots r).1, lotWF l := by
  induction lots generalizing r with
  | nil => simp [restoreWalk]
  | cons l ls ih =>
    have hl := hwf l (List.mem_cons_self l ls)
    have hls : ∀ x ∈ ls, lotWF x := fun x hx => hwf x (List.mem_cons_of_mem l hx)
    by_cases hp : l.productId = some pid
    · by_cases hr : r ≤ 0
      · simpa [restoreWalk, hp, hr] using hwf
      · by_cases ha : l.outQuantity ≤ 0
        · simp only [restoreWalk, if_pos hp, if_neg hr, if_pos ha]
          intro x hx
          rcases List.mem_cons.1 hx with h | h
          · exact h ▸ hl
          · exact ih r hls x h
        · simp only [restoreWalk, if_pos hp, if_neg hr, if_neg ha]
          intro x hx
          rcases List.mem_cons.1 hx with h | h
          · subst h
            rcases hl with ⟨h1, h2⟩
            constructor <;> simp <;> omega
          · exact ih (r - min l.outQuantity r) hls x h
    · simp only [restoreWalk, if_neg hp]
      intro x hx
      rcases List.mem_cons.1 hx with h | h
      · exact h ▸ hl
      · exact ih r hls x h

theorem restoreWalk_remaining_eq (pid : Int) (lots : List StockPurchase) (r : Int)
    (hwf : ∀ l ∈ lots, l.productId = some pid → 0 ≤ l.outQuantity)
    (hr0 : 0 ≤ r) :
    (restoreWalk pid lots r).2 = max (r - lotOutSum pid lots) 0 := by
  induction lots generalizing r with
  | nil => simp [restoreWalk, lotOutSum_nil]; omega
  | cons l ls ih =>
    have hls : ∀ x ∈ ls, x.productId = some pid → 0 ≤ x.outQuantity :=
      fun x hx => hwf x (List.mem_cons_of_mem l hx)
    have hout := lotOutSum_nonneg pid ls hls
    by_cases hp : l.productId = some pid
    · have hlq := hwf l (List.mem_cons_self l ls) hp
      by_cases hr : r ≤ 0
      · have : r = 0 := le_antisymm hr hr0
        subst this
        rw [lotOutSum_cons]
        simp only [restoreWalk, if_pos hp, if_pos (le_refl (0 : Int))]
        omega
      · by_cases ha : l.outQuantity ≤ 0
        · have h1 := ih r hls hr0
          simp only [restoreWalk, if_pos hp, if_neg hr, if_pos ha]
          rw [lotOutSum_cons]
          simp only [if_pos hp]
          omega
        · have hd0 : 0 ≤ r - min l.outQuantity r := by omega
          have h1 := ih (r - min l.outQuantity r) hls hd0
          simp only [restoreWalk, if_pos hp, if_neg hr, if_neg ha]
          rw [lotOutSum_cons]
          simp only [if_pos hp]
          omega
    · have h1 := ih r hls hr0
      simp only [restoreWalk, if_neg hp]
      rw [lotOutSum_cons]
      simp only [if_neg hp]
      omega

theorem restoreWalk_eq_specLifo (pid : Int) (lots : List StockPurchase) (r : Int)
    (hwf : ∀ l ∈ lots, l.productId = some pid → 0 ≤ l.outQuantity) :
    (restoreWalk pid lots r).1 = specLifoWalk pid lots r := by
  induction lots generalizing r with
  | nil => simp [restoreWalk, specLifoWalk]
  | cons l ls ih =>
    have hls : ∀ x ∈ ls, x.productId = some pid → 0 ≤ x.outQuantity :=
      fun x hx => hwf x (List.mem_cons_of_mem l hx)
    by_cases hr : r ≤ 0
    · by_cases hp : l.productId = some pid
      · simp [restoreWalk, specLifoWalk, hp, hr]
      · simp only [restoreWalk, if_neg hp, specLifoWalk, if_pos hr]
        rw [restoreWalk_nonpos pid ls hr]
    · by_cases hp : l.productId = some pid
      · by_cases ha : l.outQuantity ≤ 0
        · have hq := hwf l (List.mem_cons_self l ls) hp
          have hz : l.outQuantity = 0 := by omega
          have hmin : min l.outQuantity r = 0 := by rw [hz]; omega
          simp only [restoreWalk, if_pos hp, if_neg hr, if_pos ha,
            specLifoWalk, if_neg hr, hmin]
          rw [ih r hls]
          simp
        · simp only [restoreWalk, if_pos hp, if_neg hr, if_neg ha,
            specLifoWalk, if_neg hr]
          rw [ih (r - min l.outQuantity r) hls]
      · simp only [restoreWalk, if_neg hp, specLifoWalk, if_neg hr, if_neg hp]
        rw [ih r hls]

/-! ## Lemmas on `deduct_stock` / `restore_stock` -/

theorem lotOutSum_reverse (pid : Int) (lots : List StockPurchase) :
    lotOutSum pid lots.reverse = lotOutSum pid lots := by
  unfold lotOutSum
  rw [List.filter_reverse, List.map_reverse, List.sum_reverse]

theorem deduct_stock_ok_outSum {pidO : Option Int} {lots lots' : List StockPurchase}
    {q : Int} (h : deduct_stock pidO lots q = .ok lots') :
    ∀ p : Int, lotOutSum p lots' =
      lotOutSum p lots + (if pidO = some p ∧ 0 < q then q else 0) := by
  intro p
  by_cases hq : q ≤ 0
  · unfold deduct_stock at h
    rw [if_pos hq] at h
    injection h with h
    subst h
    rw [if_neg (by omega : ¬ (pidO = some p ∧ 0 < q))]
    omega
  · cases pidO with
    | none =>
      unfold deduct_stock at h
      rw [if_neg hq] at h
      simp only [] at h
      injection h with h
      subst h
      simp
    | some pid =>
      unfold deduct_stock at h
      rw [if_neg hq] at h
      simp only [] at h
      by_cases hav : get_available_stock (some pid) lots < q
      · rw [if_pos hav] at h
        exact absurd h (by simp)
      · rw [if_neg hav] at h
        by_cases hrem : 0 < (deductWalk pid lots q).2
        · rw [if_pos hrem] at h
          exact absurd h (by simp)
        · rw [if_neg hrem] at h
          injection h with h
          subst h
          have hnn : 0 ≤ (deductWalk pid lots q).2 :=
            deductWalk_remaining_nonneg pid lots (by omega)
          have hzero : (deductWalk pid lots q).2 = 0 := by omega
          by_cases hpp : pid = p
          · subst hpp
            have := lotOutSum_deductWalk pid lots q
            rw [if_pos ⟨rfl, by omega⟩]
            omega
          · rw [if_neg (by simp [hpp] : ¬ ((some pid : Option Int) = some p ∧ 0 < q))]
            rw [lotOutSum_deductWalk_ne pid p lots q (fun hh => hpp hh.symm)]
            omega

theorem lotOutSum_restoreWalk_ne (pid p' : Int) (lots : List StockPurchase) (r : Int)
    (hne : p' ≠ pid) :
    lotOutSum p' (restoreWalk pid lots r).1 = lotOutSum p' lots := by
  unfold lotOutSum
  rw [filter_restoreWalk_ne pid p' lots r hne]

theorem restore_stock_ok_outSum {pidO : Option Int} {lots lots' : List StockPurchase}
    {q : Int} (h : restore_stock pidO lots q = .ok lots') :
    ∀ p : Int, lotOutSum p lots' =
      lotOutSum p lots - (if pidO = some p ∧ 0 < q then q else 0) := by
  intro p
  by_cases hq : q ≤ 0
  · unfold restore_stock at h
    rw [if_pos hq] at h
    injection h with h
    subst h
    rw [if_neg (by omega : ¬ (pidO = some p ∧ 0 < q))]
    omega
  · cases pidO with
    | none =>
      unfold restore_stock at h
      rw [if_neg hq] at h
      simp only [] at h
      injection h with h
      subst h
      simp
    | some pid =>
      unfold restore_stock at h
      rw [if_neg hq] at h
      simp only [] at h
      by_cases hrem : 0 < (restoreWalk pid lots.reverse q).2
      · rw [if_pos hrem] at h
        exact absurd h (by simp)
      · rw [if_neg hrem] at h
        injection h with h
        subst h
        have hnn : 0 ≤ (restoreWalk pid lots.reverse q).2 :=
          restoreWalk_remaining_nonneg pid lots.reverse (by omega)
        have hzero : (restoreWalk pid lots.reverse q).2 = 0 := by omega
        by_cases hpp : pid = p
        · subst hpp
          have hmain := lotOutSum_restoreWalk pid lots.reverse q
          rw [lotOutSum_reverse pid lots] at hmain
          rw [if_pos ⟨rfl, by omega⟩]
          rw [lotOutSum_reverse pid ((restoreWalk pid lots.reverse q).1)]
          omega
        · rw [if_neg (by simp [hpp] : ¬ ((some pid : Option Int) = some p ∧ 0 < q))]
          rw [lotOutSum_reverse p ((restoreWalk pid lots.reverse q).1)]
          rw [lotOutSum_restoreWalk_ne pid p lots.reverse q (fun hh => hpp hh.symm)]
          rw [lotOutSum_reverse p lots]
          omega

theorem deduct_stock_ok_wf {pidO : Option Int} {lots lots' : List StockPurchase}
    {q : Int} (h : deduct_stock pidO lots q = .ok lots')
    (hwf : ∀ l ∈ lots, lotWF l) : ∀ l ∈ lots', lotWF l := by
  by_cases hq : q ≤ 0
  · unfold deduct_stock at h
    rw [if_pos hq] at h
    injection h with h
    subst h
    exact hwf
  · cases pidO with
    | none =>
      unfold deduct_stock at h
      rw [if_neg hq] at h
      simp only [] at h
      injection h with h
      subst h
      exact hwf
    | some pid =>
      unfold deduct_stock at h
      rw [if_neg hq] at h
      simp only [] at h
      by_cases hav : get_available_stock (some pid) lots < q
      · rw [if_pos hav] at h
        exact absurd h (by simp)
      · rw [if_neg hav] at h
        by_cases hrem : 0 < (deductWalk pid lots q).2
        · rw [if_pos hrem] at h
          exact absurd h (by simp)
        · rw [if_neg hrem] at h
          injection h with h
          subst h
          exact deductWalk_wf pid lots q hwf

theorem restore_stock_ok_wf {pidO : Option Int} {lots lots' : List StockPurchase}
    {q : Int} (h : restore_stock pidO lots q = .ok lots')
    (hwf : ∀ l ∈ lots, lotWF l) : ∀ l ∈ lots', lotWF l := by
  by_cases hq : q ≤ 0
  · unfold restore_stock at h
    rw [if_pos hq] at h
    injection h with h
    subst h
    exact hwf
  · cases pidO with
    | none =>
      unfold restore_stock at h
      rw [if_neg hq] at h
      simp only [] at h
      injection h with h
      subst h
      exact hwf
    | some pid =>
      unfold restore_stock at h
      rw [if_neg hq] at h
      simp only [] at h
      by_cases hrem : 0 < (restoreWalk pid lots.reverse q).2
      · rw [if_pos hrem] at h
        exact absurd h (by simp)
      · rw [if_neg hrem] at h
        injection h with h
        subst h
        intro l hl
        have hrev : ∀ x ∈ lots.reverse, lotWF x := by
          intro x hx
          exact hwf x (List.mem_reverse.1 hx)
        exact restoreWalk_wf pid lots.reverse q hrev l (List.mem_reverse.1 hl)

theorem deduct_stock_insufficient {p q : Int} {lots : List StockPurchase}
    (hq : 0 < q) (hav : get_available_stock (some p) lots < q) :
    deduct_stock (some p) lots q =
      .error (.insufficientStock p (get_available_stock (some p) lots) q) := by
  unfold deduct_stock
  rw [if_neg (by omega : ¬ q ≤ 0)]
  simp only []
  rw [if_pos hav]

theorem deduct_stock_ok_of_available {p q : Int} {lots : List StockPurchase}
    (hwf : ∀ l ∈ lots, l.productId = some p → l.outQuantity ≤ l.quantity)
    (hq : 0 < q) (hav : q ≤ get_available_stock (some p) lots) :
    deduct_stock (some p) lots q = .ok (specFifoWalk p lots q) := by
  unfold deduct_stock
  rw [if_neg (by omega : ¬ q ≤ 0)]
  simp only []
  rw [if_neg (by omega : ¬ get_available_stock (some p) lots < q)]
  have hrem := deductWalk_remaining_eq p lots q hwf (by omega)
  have hzero : (deductWalk p lots q).2 = 0 := by
    rw [hrem]
    omega
  rw [if_neg (by omega : ¬ 0 < (deductWalk p lots q).2)]
  rw [deductWalk_eq_specFifo p lots q hwf]

theorem restore_stock_ok_of_allocated {p q : Int} {lots : List StockPurchase}
    (hwf : ∀ l ∈ lots, l.productId = some p → 0 ≤ l.outQuantity)
    (hq : 0 < q) (hout : q ≤ lotOutSum p lots) :
    restore_stock (some p) lots q = .ok (specLifoWalk p lots.reverse q).reverse := by
  unfold restore_stock
  rw [if_neg (by omega : ¬ q ≤ 0)]
  simp only []
  have hwfr : ∀ l ∈ lots.reverse, l.productId = some p → 0 ≤ l.outQuantity := by
    intro l hl
    exact hwf l (List.mem_reverse.1 hl)
  have hrem := restoreWalk_remaining_eq p lots.reverse q hwfr (by omega)
  rw [lotOutSum_reverse] at hrem
  have hzero : (restoreWalk p lots.reverse q).2 = 0 := by
    rw [hrem]
    omega
  rw [if_neg (by omega : ¬ 0 < (restoreWalk p lots.reverse q).2)]
  rw [restoreWalk_eq_specLifo p lots.reverse q hwfr]

/-! ## Lemmas on `applyLoop` -/

theorem applyStock_ok_outSum {dt : Option (List (ItemRef × Bool))}
    {item : SaleItemRow} {lots lots1 : List StockPurchase}
    (h : applyStock dt item lots = .ok lots1) :
    ∀ p : Int, lotOutSum p lots1 =
      lotOutSum p lots +
        (if item.productId = some p
          then targetQty dt item - item.deliveredQuantity else 0) := by
  intro p
  unfold applyStock at h
  set delta := targetQty dt item - item.deliveredQuantity with hdelta
  by_cases h1 : 0 < delta
  · rw [if_pos h1] at h
    have := deduct_stock_ok_outSum h p
    by_cases hp : item.productId = some p
    · rw [if_pos ⟨hp, h1⟩] at this
      rw [if_pos hp]
      omega
    · rw [if_neg (by tauto)] at this
      rw [if_neg hp]
      omega
  · rw [if_neg h1] at h
    by_cases h2 : delta < 0
    · rw [if_pos h2] at h
      have := restore_stock_ok_outSum h p
      by_cases hp : item.productId = some p
      · rw [if_pos ⟨hp, by omega⟩] at this
        rw [if_pos hp]
        omega
      · rw [if_neg (by tauto)] at this
        rw [if_neg hp]
        omega
    · rw [if_neg h2] at h
      injection h with h
      subst h
      have hz : delta = 0 := by omega
      by_cases hp : item.productId = some p
      · rw [if_pos hp]
        omega
      · rw [if_neg hp]
        omega

theorem applyStock_ok_wf {dt : Option (List (ItemRef × Bool))}
    {item : SaleItemRow} {lots lots1 : List StockPurchase}
    (h : applyStock dt item lots = .ok lots1)
    (hwf : ∀ l ∈ lots, lotWF l) : ∀ l ∈ lots1, lotWF l := by
  unfold applyStock at h
  set delta := targetQty dt item - item.deliveredQuantity with hdelta
  by_cases h1 : 0 < delta
  · rw [if_pos h1] at h
    exact deduct_stock_ok_wf h hwf
  · rw [if_neg h1] at h
    by_cases h2 : delta < 0
    · rw [if_pos h2] at h
      exact restore_stock_ok_wf h hwf
    · rw [if_neg h2] at h
      injection h with h
      subst h
      exact hwf

theorem applyLoop_ok_sum (dt pt : Option (List (ItemRef × Bool))) :
    ∀ (items : List SaleItemRow) (lots : List StockPurchase)
      (items' : List SaleItemRow) (lots' : List StockPurchase),
      applyLoop dt pt items lots = .ok (items', lots') →
      ∀ p : Int, lotOutSum p lots' + itemsDeliveredSum p items =
        lotOutSum p lots + itemsDeliveredSum p items' := by
  intro items
  induction items with
  | nil =>
    intro lots items' lots' h p
    unfold applyLoop at h
    injection h with h
    injection h with h1 h2
    subst h1
    subst h2
    simp [itemsDeliveredSum_nil]
  | cons item rest ih =>
    intro lots items' lots' h p
    unfold applyLoop at h
    cases hsr : applyStock dt item lots with
    | error e =>
      rw [hsr] at h
      exact absurd h (by simp)
    | ok lots1 =>
      rw [hsr] at h
      simp only [] at h
      cases hrec : applyLoop dt pt rest lots1 with
      | error e =>
        rw [hrec] at h
        exact absurd h (by simp)
      | ok pr =>
        rw [hrec] at h
        obtain ⟨restItems, lots2⟩ := pr
        simp only [] at h
        injection h with h
        injection h with h1 h2
        subst h1
        subst h2
        have hstep := applyStock_ok_outSum hsr p
        have hrest := ih lots1 restItems lots2 hrec p
        rw [itemsDeliveredSum_cons, itemsDeliveredSum_cons]
        by_cases hp : item.productId = some p
        · rw [if_pos hp] at hstep
          simp only [hp, if_pos]
          omega
        · rw [if_neg hp] at hstep
          have hp' : ¬ ({ item with
              deliveredQuantity := targetQty dt item,
              isPaid := newPaid pt item } : SaleItemRow).productId = some p := hp
          rw [if_neg hp, if_neg hp']
          omega

theorem applyLoop_ok_dq (dt pt : Option (List (ItemRef × Bool))) :
    ∀ (items : List SaleItemRow) (lots : List StockPurchase)
      (items' : List SaleItemRow) (lots' : List StockPurchase),
      applyLoop dt pt items lots = .ok (items', lots') →
      ∀ it ∈ items', it.deliveredQuantity = 0 ∨ it.deliveredQuantity = it.quantity := by
  intro items
  induction items with
  | nil =>
    intro lots items' lots' h
    unfold applyLoop at h
    injection h with h
    injection h with h1 h2
    subst h1
    simp
  | cons item rest ih =>
    intro lots items' lots' h
    unfold applyLoop at h
    cases hsr : applyStock dt item lots with
    | error e =>
      rw [hsr] at h
      exact absurd h (by simp)
    | ok lots1 =>
      rw [hsr] at h
      simp only [] at h
      cases hrec : applyLoop dt pt rest lots1 with
      | error e =>
        rw [hrec] at h
        exact absurd h (by simp)
      | ok pr =>
        rw [hrec] at h
        obtain ⟨restItems, lots2⟩ := pr
        simp only [] at h
        injection h with h
        injection h with h1 h2
        subst h1
        intro it hit
        rcases List.mem_cons.1 hit with hh | hh
        · subst hh
          unfold targetQty
          by_cases hb : targetDelivered dt item
        -- new head: delivered_quantity is qty or 0
          · rw [if_pos hb]
            right
            rfl
          · rw [if_neg hb]
            left
            rfl
        · exact ih lots1 restItems lots2 hrec it hh

theorem applyLoop_ok_quantity (dt pt : Option (List (ItemRef × Bool))) :
    ∀ (items : List SaleItemRow) (lots : List StockPurchase)
      (items' : List SaleItemRow) (lots' : List StockPurchase),
      applyLoop dt pt items lots = .ok (items', lots') →
      ∀ it' ∈ items', ∃ it ∈ items, it'.quantity = it.quantity := by
  intro items
  induction items with
  | nil =>
    intro lots items' lots' h
    unfold applyLoop at h
    injection h with h
    injection h with h1 h2
    subst h1
    simp
  | cons item rest ih =>
    intro lots items' lots' h
    unfold applyLoop at h
    cases hsr : applyStock dt item lots with
    | error e =>
      rw [hsr] at h
      exact absurd h (by simp)
    | ok lots1 =>
      rw [hsr] at h
      simp only [] at h
      cases hrec : applyLoop dt pt rest lots1 with
      | error e =>
        rw [hrec] at h
        exact absurd h (by simp)
      | ok pr =>
        rw [hrec] at h
        obtain ⟨restItems, lots2⟩ := pr
        simp only [] at h
        injection h with h
        injection h with h1 h2
        subst h1
        intro it' hit
        rcases List.mem_cons.1 hit with hh | hh
        · subst hh
          exact ⟨item, List.mem_cons_self item rest, rfl⟩
        · obtain ⟨it, hmem, heq⟩ := ih lots1 restItems lots2 hrec it' hh
          exact ⟨it, List.mem_cons_of_mem item hmem, heq⟩

theorem applyLoop_ok_lotWF (dt pt : Option (List (ItemRef × Bool))) :
    ∀ (items : List SaleItemRow) (lots : List StockPurchase)
      (items' : List SaleItemRow) (lots' : List StockPurchase),
      applyLoop dt pt items lots = .ok (items', lots') →
      (∀ l ∈ lots, lotWF l) → ∀ l ∈ lots', lotWF l := by
  intro items
  induction items with
  | nil =>
    intro lots items' lots' h hwf
    unfold applyLoop at h
    injection h with h
    injection h with h1 h2
    subst h2
    exact hwf
  | cons item rest ih =>
    intro lots items' lots' h hwf
    unfold applyLoop at h
    cases hsr : applyStock dt item lots with
    | error e =>
      rw [hsr] at h
      exact absurd h (by simp)
    | ok lots1 =>
      rw [hsr] at h
      simp only [] at h
      cases hrec : applyLoop dt pt rest lots1 with
      | error e =>
        rw [hrec] at h
        exact absurd h (by simp)
      | ok pr =>
        rw [hrec] at h
        obtain ⟨restItems, lots2⟩ := pr
        simp only [] at h
        injection h with h
        injection h with h1 h2
        subst h2
        exact ih lots1 restItems lots2 hrec (applyStock_ok_wf hsr hwf)

/-! ## Lemmas on `restoreItemsLoop`, `sync_sale_state`, `normalizeLoop` -/

theorem restoreItemsLoop_ok_sum :
    ∀ (items : List SaleItemRow) (lots lots' : List StockPurchase),
      restoreItemsLoop items lots = .ok lots' →
      (∀ it ∈ items, 0 ≤ it.deliveredQuantity) →
      ∀ p : Int, lotOutSum p lots' + itemsDeliveredSum p items = lotOutSum p lots := by
  intro items
  induction items with
  | nil =>
    intro lots lots' h hnn p
    unfold restoreItemsLoop at h
    injection h with h
    subst h
    simp [itemsDeliveredSum_nil]
  | cons item rest ih =>
    intro lots lots' h hnn p
    have hnn0 := hnn item (List.mem_cons_self item rest)
    have hnnr : ∀ it ∈ rest, 0 ≤ it.deliveredQuantity :=
      fun it hit => hnn it (List.mem_cons_of_mem item hit)
    unfold restoreItemsLoop at h
    rw [itemsDeliveredSum_cons]
    by_cases hdq : 0 < item.deliveredQuantity
    · rw [if_pos hdq] at h
      cases hres : restore_stock item.productId lots item.deliveredQuantity with
      | error e =>
        rw [hres] at h
        exact absurd h (by simp)
      | ok lots1 =>
        rw [hres] at h
        simp only [] at h
        have hstep := restore_stock_ok_outSum hres p
        have hrest := ih lots1 lots' h hnnr p
        by_cases hp : item.productId = some p
        · rw [if_pos ⟨hp, hdq⟩] at hstep
          rw [if_pos hp]
          omega
        · rw [if_neg (by tauto)] at hstep
          rw [if_neg hp]
          omega
    · rw [if_neg hdq] at h
      have hz : item.deliveredQuantity = 0 := by omega
      have hrest := ih lots lots' h hnnr p
      by_cases hp : item.productId = some p
      · rw [if_pos hp]
        omega
      · rw [if_neg hp]
        omega

theorem restoreItemsLoop_ok_wf :
    ∀ (items : List SaleItemRow) (lots lots' : List StockPurchase),
      restoreItemsLoop items lots = .ok lots' →
      (∀ l ∈ lots, lotWF l) → ∀ l ∈ lots', lotWF l := by
  intro items
  induction items with
  | nil =>
    intro lots lots' h hwf
    unfold restoreItemsLoop at h
    injection h with h
    subst h
    exact hwf
  | cons item rest ih =>
    intro lots lots' h hwf
    unfold restoreItemsLoop at h
    by_cases hdq : 0 < item.deliveredQuantity
    · rw [if_pos hdq] at h
      cases hres : restore_stock item.productId lots item.deliveredQuantity with
      | error e =>
        rw [hres] at h
        exact absurd h (by simp)
      | ok lots1 =>
        rw [hres] at h
        simp only [] at h
        exact ih lots1 lots' h (restore_stock_ok_wf hres hwf)
    · rw [if_neg hdq] at h
      exact ih lots lots' h hwf

theorem sync_sale_state_id (s : SaleRow) : (sync_sale_state s).id = s.id := rfl

theorem sync_sale_state_items (s : SaleRow) :
    (sync_sale_state s).items = s.items := rfl

theorem sync_sale_state_idem (s : SaleRow) :
    sync_sale_state (sync_sale_state s) = sync_sale_state s := rfl

theorem normalizeLoop_ok_items {products : List Int} {fd fp : Option Bool} :
    ∀ (rawItems : List RawItem) (seen : List ItemRef)
      (items : List NormalizedItem) (total : ℚ),
      normalizeLoop products fd fp seen rawItems = .ok (items, total) →
      ∀ it ∈ items, 0 < it.quantity ∧
        (it.deliveredQuantity = 0 ∨ it.deliveredQuantity = it.quantity) := by
  intro rawItems
  induction rawItems with
  | nil =>
    intro seen items total h
    unfold normalizeLoop at h
    injection h with h
    injection h with h1 h2
    subst h1
    simp
  | cons item rest ih =>
    intro seen items total h
    unfold normalizeLoop at h
    cases hres : resolveItemRef products item with
    | error e =>
      rw [hres] at h
      exact absurd h (by simp)
    | ok tr =>
      rw [hres] at h
      obtain ⟨ref, pid, manualName⟩ := tr
      simp only [] at h
      by_cases hseen : ref ∈ seen
      · rw [if_pos hseen] at h
        exact absurd h (by simp)
      · rw [if_neg hseen] at h
        by_cases hqty : item.quantity ≤ 0
        · rw [if_pos hqty] at h
          exact absurd h (by simp)
        · rw [if_neg hqty] at h
          by_cases hpr : item.unitPrice ≤ 0
          · rw [if_pos hpr] at h
            exact absurd h (by simp)
          · rw [if_neg hpr] at h
            cases hrec : normalizeLoop products fd fp (ref :: seen) rest with
            | error e =>
              rw [hrec] at h
              exact absurd h (by simp)
            | ok pr =>
              rw [hrec] at h
              obtain ⟨items0, total0⟩ := pr
              simp only [] at h
              injection h with h
              injection h with h1 h2
              subst h1
              intro it hit
              rcases List.mem_cons.1 hit with hh | hh
              · subst hh
                constructor
                · simpa [normalizedOf] using (by omega : 0 < item.quantity)
                · unfold normalizedOf
                  by_cases hb : deliveredFlagOf fd item
                  · rw [if_pos hb]
                    right
                    rfl
                  · rw [if_neg hb]
                    left
                    rfl
              · exact ih (ref :: seen) items0 total0 hrec it hh

theorem normalize_items_ok_items {products : List Int} {fd fp : Option Bool}
    {rawItems : List RawItem} {items : List NormalizedItem} {total : ℚ}
    (h : normalize_items products rawItems fd fp = .ok (items, total)) :
    ∀ it ∈ items, 0 < it.quantity ∧
      (it.deliveredQuantity = 0 ∨ it.deliveredQuantity = it.quantity) := by
  unfold normalize_items at h
  by_cases hne : rawItems = []
  · rw [if_pos hne] at h
    exact absurd h (by simp)
  · rw [if_neg hne] at h
    cases hloop : normalizeLoop products fd fp [] rawItems with
    | error e =>
      rw [hloop] at h
      exact absurd h (by simp)
    | ok pr =>
      rw [hloop] at h
      obtain ⟨items0, total0⟩ := pr
      simp only [] at h
      injection h with h
      injection h with h1 h2
      subst h1
      exact normalizeLoop_ok_items rawItems [] items0 total0 hloop

theorem itemsDeliveredSum_fresh (p : Int) (items : List NormalizedItem) :
    itemsDeliveredSum p (items.map freshSaleItem) = 0 := by
  induction items with
  | nil => simp [itemsDeliveredSum_nil]
  | cons it rest ih =>
    rw [List.map_cons, itemsDeliveredSum_cons]
    by_cases hp : (freshSaleItem it).productId = some p
    · rw [if_pos hp]
      simp [freshSaleItem] at *
      omega
    · rw [if_neg hp]
      omega

theorem lineDeliveredSum_append (p : Int) (s1 s2 : List SaleRow) :
    lineDeliveredSum p (s1 ++ s2) = lineDeliveredSum p s1 + lineDeliveredSum p s2 := by
  unfold lineDeliveredSum itemsDeliveredSum
  rw [List.flatMap_append, List.filter_append, List.map_append, List.sum_append]

theorem lineDeliveredSum_cons (p : Int) (s : SaleRow) (rest : List SaleRow) :
    lineDeliveredSum p (s :: rest) =
      itemsDeliveredSum p s.items + lineDeliveredSum p rest := by
  unfold lineDeliveredSum itemsDeliveredSum
  rw [List.flatMap_cons, List.filter_append, List.map_append, List.sum_append]

theorem lineDeliveredSum_singleton (p : Int) (s : SaleRow) :
    lineDeliveredSum p [s] = itemsDeliveredSum p s.items := by
  rw [lineDeliveredSum_cons]
  unfold lineDeliveredSum itemsDeliveredSum
  simp

/-! ## Operation-level lemmas -/

theorem apply_item_states_ok {sale : SaleRow} {lots : List StockPurchase}
    {dt pt : Option (List (ItemRef × Bool))} {sale' : SaleRow}
    {lots' : List StockPurchase}
    (h : apply_item_states sale lots dt pt = .ok (sale', lots')) :
    ∃ items', applyLoop dt pt sale.items lots = .ok (items', lots') ∧
      sale' = sync_sale_state { sale with items := items' } := by
  unfold apply_item_states at h
  cases hloop : applyLoop dt pt sale.items lots with
  | error e =>
    rw [hloop] at h
    exact absurd h (by simp)
  | ok pr =>
    rw [hloop] at h
    obtain ⟨items', lots1⟩ := pr
    simp only [] at h
    injection h with h
    injection h with h1 h2
    subst h2
    exact ⟨items', rfl, h1.symm⟩

theorem create_sale_ok_sum {products : List Int} {lots : List StockPurchase}
    {nextId createdAt : Int} {data : CreateSaleData} {sale' : SaleRow}
    {lots' : List StockPurchase}
    (h : create_sale products lots nextId createdAt data = .ok (sale', lots')) :
    ∀ p : Int, lotOutSum p lots' = lotOutSum p lots + itemsDeliveredSum p sale'.items := by
  intro p
  unfold create_sale at h
  cases hn : normalize_items products data.items
      (if data.delivered then some true else none)
      (if data.paid then some true else none) with
  | error e =>
    rw [hn] at h
    exact absurd h (by simp)
  | ok pr =>
    rw [hn] at h
    obtain ⟨items, totalAmount⟩ := pr
    simp only [] at h
    obtain ⟨items', hloop, hsale⟩ := apply_item_states_ok h
    have hsum := applyLoop_ok_sum _ _ _ _ _ _ hloop p
    have hfresh := itemsDeliveredSum_fresh p items
    have hitems' : sale'.items = items' := by
      rw [hsale, sync_sale_state_items]
    rw [hitems']
    simp only [] at hsum
    rw [hfresh] at hsum
    omega

theorem create_sale_ok_wf {products : List Int} {lots : List StockPurchase}
    {nextId createdAt : Int} {data : CreateSaleData} {sale' : SaleRow}
    {lots' : List StockPurchase}
    (h : create_sale products lots nextId createdAt data = .ok (sale', lots'))
    (hwf : ∀ l ∈ lots, lotWF l) :
    (∀ l ∈ lots', lotWF l) ∧ (∀ it ∈ sale'.items, lineWF it) := by
  unfold create_sale at h
  cases hn : normalize_items products data.items
      (if data.delivered then some true else none)
      (if data.paid then some true else none) with
  | error e =>
    rw [hn] at h
    exact absurd h (by simp)
  | ok pr =>
    rw [hn] at h
    obtain ⟨items, totalAmount⟩ := pr
    simp only [] at h
    obtain ⟨items', hloop, hsale⟩ := apply_item_states_ok h
    have hitems' : sale'.items = items' := by
      rw [hsale, sync_sale_state_items]
    constructor
    · exact applyLoop_ok_lotWF _ _ _ _ _ _ hloop hwf
    · rw [hitems']
      intro it hit
      have hdq := applyLoop_ok_dq _ _ _ _ _ _ hloop it hit
      obtain ⟨it0, hmem0, hq0⟩ := applyLoop_ok_quantity _ _ _ _ _ _ hloop it hit
      obtain ⟨nit, hnmem, hnit⟩ := List.mem_map.1 hmem0
      have hq := (normalize_items_ok_items hn nit hnmem).1
      have : it0.quantity = nit.quantity := by
        rw [← hnit]
        rfl
      unfold lineWF
      omega

theorem delete_sale_ok_sum {sale : SaleRow} {lots lots' : List StockPurchase}
    (h : delete_sale sale lots = .ok lots')
    (hnn : ∀ it ∈ sale.items, 0 ≤ it.deliveredQuantity) :
    ∀ p : Int, lotOutSum p lots' + itemsDeliveredSum p sale.items = lotOutSum p lots :=
  restoreItemsLoop_ok_sum sale.items lots lots' h hnn

theorem update_sale_ok_sum {products : List Int} {sale : SaleRow}
    {lots : List StockPurchase} {u : UpdateSaleData} {sale' : SaleRow}
    {lots' : List StockPurchase}
    (h : update_sale products sale lots u = .ok (sale', lots'))
    (hnn : ∀ it ∈ sale.items, 0 ≤ it.deliveredQuantity) :
    ∀ p : Int, lotOutSum p lots' + itemsDeliveredSum p sale.items =
      lotOutSum p lots + itemsDeliveredSum p sale'.items := by
  intro p
  unfold update_sale at h
  cases hu : u.items with
  | some rawItems =>
    rw [hu] at h
    simp only [] at h
    cases hn : normalize_items products rawItems
        (if u.delivered = some true then some true else none)
        (if u.paid = some true then some true else none) with
    | error e =>
      rw [hn] at h
      exact absurd h (by simp)
    | ok pr =>
      rw [hn] at h
      obtain ⟨normalized, newTotal⟩ := pr
      simp only [] at h
      cases hrest : restoreItemsLoop sale.items lots with
      | error e =>
        rw [hrest] at h
        exact absurd h (by simp)
      | ok lots1 =>
        rw [hrest] at h
        simp only [] at h
        obtain ⟨items', hloop, hsale⟩ := apply_item_states_ok h
        have hsum := applyLoop_ok_sum _ _ _ _ _ _ hloop p
        have hfresh := itemsDeliveredSum_fresh p normalized
        have hrsum := restoreItemsLoop_ok_sum sale.items lots lots1 hrest hnn p
        have hitems' : sale'.items = items' := by
          rw [hsale, sync_sale_state_items]
        rw [hitems']
        simp only [] at hsum
        rw [hfresh] at hsum
        omega
  | none =>
    rw [hu] at h
    simp only [] at h
    by_cases hflag : u.delivered.isSome || u.paid.isSome
    · rw [if_pos hflag] at h
      obtain ⟨items', hloop, hsale⟩ := apply_item_states_ok h
      have hsum := applyLoop_ok_sum _ _ _ _ _ _ hloop p
      have hitems' : sale'.items = items' := by
        rw [hsale, sync_sale_state_items]
      rw [hitems']
      simp only [] at hsum
      omega
    · rw [if_neg hflag] at h
      injection h with h
      injection h with h1 h2
      subst h2
      have hitems' : sale'.items = sale.items := by
        rw [← h1, sync_sale_state_items]
      rw [hitems']

theorem update_sale_ok_wf {products : List Int} {sale : SaleRow}
    {lots : List StockPurchase} {u : UpdateSaleData} {sale' : SaleRow}
    {lots' : List StockPurchase}
    (h : update_sale products sale lots u = .ok (sale', lots'))
    (hwf : ∀ l ∈ lots, lotWF l)
    (hlines : ∀ it ∈ sale.items, lineWF it) :
    (∀ l ∈ lots', lotWF l) ∧ (∀ it ∈ sale'.items, lineWF it) := by
  unfold update_sale at h
  cases hu : u.items with
  | some rawItems =>
    rw [hu] at h
    simp only [] at h
    cases hn : normalize_items products rawItems
        (if u.delivered = some true then some true else none)
        (if u.paid = some true then some true else none) with
    | error e =>
      rw [hn] at h
      exact absurd h (by simp)
    | ok pr =>
      rw [hn] at h
      obtain ⟨normalized, newTotal⟩ := pr
      simp only [] at h
      cases hrest : restoreItemsLoop sale.items lots with
      | error e =>
        rw [hrest] at h
        exact absurd h (by simp)
      | ok lots1 =>
        rw [hrest] at h
        simp only [] at h
        obtain ⟨items', hloop, hsale⟩ := apply_item_states_ok h
        have hwf1 := restoreItemsLoop_ok_wf sale.items lots lots1 hrest hwf
        have hitems' : sale'.items = items' := by
          rw [hsale, sync_sale_state_items]
        constructor
        · exact applyLoop_ok_lotWF _ _ _ _ _ _ hloop hwf1
        · rw [hitems']
          intro it hit
          have hdq := applyLoop_ok_dq _ _ _ _ _ _ hloop it hit
          obtain ⟨it0, hmem0, hq0⟩ := applyLoop_ok_quantity _ _ _ _ _ _ hloop it hit
          obtain ⟨nit, hnmem, hnit⟩ := List.mem_map.1 hmem0
          have hq := (normalize_items_ok_items hn nit hnmem).1
          have : it0.quantity = nit.quantity := by
            rw [← hnit]
            rfl
          unfold lineWF
          omega
  | none =>
    rw [hu] at h
    simp only [] at h
    by_cases hflag : u.delivered.isSome || u.paid.isSome
    · rw [if_pos hflag] at h
      obtain ⟨items', hloop, hsale⟩ := apply_item_states_ok h
      have hitems' : sale'.items = items' := by
        rw [hsale, sync_sale_state_items]
      constructor
      · exact applyLoop_ok_lotWF _ _ _ _ _ _ hloop hwf
      · rw [hitems']
        intro it hit
        have hdq := applyLoop_ok_dq _ _ _ _ _ _ hloop it hit
        obtain ⟨it0, hmem0, hq0⟩ := applyLoop_ok_quantity _ _ _ _ _ _ hloop it hit
        have h0 := hlines it0 hmem0
        unfold lineWF at *
        omega
    · rw [if_neg hflag] at h
      injection h with h
      injection h with h1 h2
      subst h2
      constructor
      · exact hwf
      · have hitems' : sale'.items = sale.items := by
          rw [← h1, sync_sale_state_items]
        rw [hitems']
        exact hlines

theorem delete_sale_ok_wf {sale : SaleRow} {lots lots' : List StockPurchase}
    (h : delete_sale sale lots = .ok lots')
    (hwf : ∀ l ∈ lots, lotWF l) : ∀ l ∈ lots', lotWF l :=
  restoreItemsLoop_ok_wf sale.items lots lots' h hwf

theorem create_sale_ok_dq {products : List Int} {lots : List StockPurchase}
    {nextId createdAt : Int} {data : CreateSaleData} {sale' : SaleRow}
    {lots' : List StockPurchase}
    (h : create_sale products lots nextId createdAt data = .ok (sale', lots')) :
    ∀ it ∈ sale'.items,
      it.deliveredQuantity = 0 ∨ it.deliveredQuantity = it.quantity := by
  unfold create_sale at h
  cases hn : normalize_items products data.items
      (if data.delivered then some true else none)
      (if data.paid then some true else none) with
  | error e =>
    rw [hn] at h
    exact absurd h (by simp)
  | ok pr =>
    rw [hn] at h
    obtain ⟨items, totalAmount⟩ := pr
    simp only [] at h
    obtain ⟨items', hloop, hsale⟩ := apply_item_states_ok h
    have hitems' : sale'.items = items' := by
      rw [hsale, sync_sale_state_items]
    rw [hitems']
    exact applyLoop_ok_dq _ _ _ _ _ _ hloop

theorem update_sale_ok_dq {products : List Int} {sale : SaleRow}
    {lots : List StockPurchase} {u : UpdateSaleData} {sale' : SaleRow}
    {lots' : List StockPurchase}
    (h : update_sale products sale lots u = .ok (sale', lots'))
    (hpre : ∀ it ∈ sale.items,
      it.deliveredQuantity = 0 ∨ it.deliveredQuantity = it.quantity) :
    ∀ it ∈ sale'.items,
      it.deliveredQuantity = 0 ∨ it.deliveredQuantity = it.quantity := by
  unfold update_sale at h
  cases hu : u.items with
  | some rawItems =>
    rw [hu] at h
    simp only [] at h
    cases hn : normalize_items products rawItems
        (if u.delivered = some true then some true else none)
        (if u.paid = some true then some true else none) with
    | error e =>
      rw [hn] at h
      exact absurd h (by simp)
    | ok pr =>
      rw [hn] at h
      obtain ⟨normalized, newTotal⟩ := pr
      simp only [] at h
      cases hrest : restoreItemsLoop sale.items lots with
      | error e =>
        rw [hrest] at h
        exact absurd h (by simp)
      | ok lots1 =>
        rw [hrest] at h
        simp only [] at h
        obtain ⟨items', hloop, hsale⟩ := apply_item_states_ok h
        have hitems' : sale'.items = items' := by
          rw [hsale, sync_sale_state_items]
        rw [hitems']
        exact applyLoop_ok_dq _ _ _ _ _ _ hloop
  | none =>
    rw [hu] at h
    simp only [] at h
    by_cases hflag : u.delivered.isSome || u.paid.isSome
    · rw [if_pos hflag] at h
      obtain ⟨items', hloop, hsale⟩ := apply_item_states_ok h
      have hitems' : sale'.items = items' := by
        rw [hsale, sync_sale_state_items]
      rw [hitems']
      exact applyLoop_ok_dq _ _ _ _ _ _ hloop
    · rw [if_neg hflag] at h
      injection h with h
      injection h with h1 h2
      have hitems' : sale'.items = sale.items := by
        rw [← h1, sync_sale_state_items]
      rw [hitems']
      exact hpre

/-! ## Lemmas on the reconciliation engine -/

theorem reconcileItems_lots_reset (saleId : Int) :
    ∀ (items : List SaleItemRow) (acc : ReconcileAcc),
      ((reconcileItems saleId items acc).lots).map resetOut = acc.lots.map resetOut := by
  intro items
  induction items with
  | nil =>
    intro acc
    rfl
  | cons item rest ih =>
    intro acc
    unfold reconcileItems
    cases hpid : item.productId with
    | none => exact ih acc
    | some pid =>
      simp only []
      by_cases hreq : item.deliveredQuantity ≤ 0
      · rw [if_pos hreq]
        exact ih acc
      · rw [if_neg hreq]
        rw [ih _]
        simp only []
        exact deductWalk_map_reset pid acc.lots item.deliveredQuantity

theorem reconcileSales_fst :
    ∀ (sales : List SaleRow) (acc : ReconcileAcc),
      (reconcileSales sales acc).1 = sales.map sync_sale_state := by
  intro sales
  induction sales with
  | nil =>
    intro acc
    rfl
  | cons sale rest ih =>
    intro acc
    unfold reconcileSales
    rw [List.map_cons]
    simp only []
    rw [ih]

theorem reconcileSales_snd_map_sync :
    ∀ (sales : List SaleRow) (acc : ReconcileAcc),
      (reconcileSales (sales.map sync_sale_state) acc).2 =
        (reconcileSales sales acc).2 := by
  intro sales
  induction sales with
  | nil =>
    intro acc
    rfl
  | cons sale rest ih =>
    intro acc
    rw [List.map_cons]
    unfold reconcileSales
    simp only [sync_sale_state_id, sync_sale_state_items]
    rw [ih]

theorem reconcileSales_lots_reset :
    ∀ (sales : List SaleRow) (acc : ReconcileAcc),
      ((reconcileSales sales acc).2.lots).map resetOut = acc.lots.map resetOut := by
  intro sales
  induction sales with
  | nil =>
    intro acc
    rfl
  | cons sale rest ih =>
    intro acc
    unfold reconcileSales
    simp only []
    rw [ih]
    exact reconcileItems_lots_reset sale.id sale.items acc

theorem map_reset_idem (lots : List StockPurchase) :
    (lots.map resetOut).map resetOut = lots.map resetOut := by
  rw [List.map_map]
  rfl

theorem reconcileItems_lots_wf (saleId : Int) :
    ∀ (items : List SaleItemRow) (acc : ReconcileAcc),
      (∀ l ∈ acc.lots, lotWF l) →
      ∀ l ∈ (reconcileItems saleId items acc).lots, lotWF l := by
  intro items
  induction items with
  | nil =>
    intro acc hwf
    exact hwf
  | cons item rest ih =>
    intro acc hwf
    unfold reconcileItems
    cases hpid : item.productId with
    | none => exact ih acc hwf
    | some pid =>
      simp only []
      by_cases hreq : item.deliveredQuantity ≤ 0
      · rw [if_pos hreq]
        exact ih acc hwf
      · rw [if_neg hreq]
        refine ih _ ?_
        exact deductWalk_wf pid acc.lots item.deliveredQuantity hwf

theorem reconcileSales_lots_wf :
    ∀ (sales : List SaleRow) (acc : ReconcileAcc),
      (∀ l ∈ acc.lots, lotWF l) →
      ∀ l ∈ (reconcileSales sales acc).2.lots, lotWF l := by
  intro sales
  induction sales with
  | nil =>
    intro acc hwf
    exact hwf
  | cons sale rest ih =>
    intro acc hwf
    unfold reconcileSales
    simp only []
    exact ih _ (reconcileItems_lots_wf sale.id sale.items acc hwf)

theorem reconcile_delivered_stock_lotWF {sales : List SaleRow}
    {lots : List StockPurchase} (hwf : ∀ l ∈ lots, lotWF l) :
    ∀ l ∈ (reconcile_delivered_stock sales lots).2.1, lotWF l := by
  unfold reconcile_delivered_stock
  simp only []
  apply reconcileSales_lots_wf
  intro l hl
  obtain ⟨x, hx, rfl⟩ := List.mem_map.1 hl
  have := hwf x hx
  unfold lotWF resetOut at *
  constructor
  · simp
  · simp
    omega

theorem reconcile_delivered_stock_lineWF {sales : List SaleRow}
    {lots : List StockPurchase}
    (hlines : ∀ s ∈ sales, ∀ it ∈ s.items, lineWF it) :
    ∀ s ∈ (reconcile_delivered_stock sales lots).1,
      ∀ it ∈ s.items, lineWF it := by
  unfold reconcile_delivered_stock
  simp only []
  rw [reconcileSales_fst]
  intro s hs
  obtain ⟨s0, hs0, rfl⟩ := List.mem_map.1 hs
  rw [sync_sale_state_items]
  exact hlines s0 hs0

/-! ## Lemmas for the aggregate synchroniser and the stock summary -/

theorem deliveredFull_eq_decide {it : SaleItemRow} (hpos : 0 < it.quantity)
    (hle : it.deliveredQuantity ≤ it.quantity) :
    deliveredFull it = decide (it.deliveredQuantity = it.quantity) := by
  unfold deliveredFull
  by_cases hd : it.deliveredQuantity = it.quantity
  · have h1 : decide (0 < it.quantity) = true := by simpa using hpos
    have h2 : decide (it.quantity ≤ it.deliveredQuantity) = true := by
      simpa using (by omega : it.quantity ≤ it.deliveredQuantity)
    rw [h1, h2]
    simp [hd]
  · have h2 : decide (it.quantity ≤ it.deliveredQuantity) = false := by
      simpa using (by omega : ¬ it.quantity ≤ it.deliveredQuantity)
    rw [h2]
    simp [hd]

theorem lineTotal_eq_totalPrice {it : SaleItemRow} (h : CentValued it.totalPrice) :
    lineTotal it = it.totalPrice := quantize2_centValued h

theorem lookup_map_pair {β : Type} (f : Int → β) :
    ∀ (ids : List Int) (pid : Int), pid ∈ ids →
      (ids.map (fun i => (i, f i))).lookup pid = some (f pid) := by
  intro ids
  induction ids with
  | nil =>
    intro pid h
    exact absurd h (by simp)
  | cons i rest ih =>
    intro pid h
    rw [List.map_cons]
    unfold List.lookup
    by_cases he : pid = i
    · subst he
      simp
    · have : (pid == i) = false := by
        simp [he]
      rw [this]
      simp only []
      exact ih pid (by
        rcases List.mem_cons.1 h with hh | hh
        · exact absurd hh he
        · exact hh)

/-! # Claim theorems -/

/-- **C1**: after any settled sale mutation (`create_sale`, `update_sale` or
`delete_sale` completing without error — an error rolls the transaction
back, so no state survives it), every product's `Σ out_quantity` over stock
lots equals `Σ delivered_quantity` over the sale lines referencing it.
Stated as preservation of `stockInvariant` by each of the three entry
points; the update/delete parts assume the (spec-invariant) fact that
stored lines carry non-negative delivered quantities. -/
theorem C1_settled_stock_invariant :
    (∀ (products : List Int) (sales : List SaleRow) (lots : List StockPurchase)
        (nextId createdAt : Int) (data : CreateSaleData) (sale' : SaleRow)
        (lots' : List StockPurchase),
        stockInvariant sales lots →
        create_sale products lots nextId createdAt data = .ok (sale', lots') →
        stockInvariant (sales ++ [sale']) lots') ∧
    (∀ (products : List Int) (pre post : List SaleRow) (sale : SaleRow)
        (lots : List StockPurchase) (u : UpdateSaleData) (sale' : SaleRow)
        (lots' : List StockPurchase),
        stockInvariant (pre ++ sale :: post) lots →
        (∀ it ∈ sale.items, 0 ≤ it.deliveredQuantity) →
        update_sale products sale lots u = .ok (sale', lots') →
        stockInvariant (pre ++ sale' :: post) lots') ∧
    (∀ (pre post : List SaleRow) (sale : SaleRow)
        (lots lots' : List StockPurchase),
        stockInvariant (pre ++ sale :: post) lots →
        (∀ it ∈ sale.items, 0 ≤ it.deliveredQuantity) →
        delete_sale sale lots = .ok lots' →
        stockInvariant (pre ++ post) lots') := by
  refine ⟨?_, ?_, ?_⟩
  · intro products sales lots nextId createdAt data sale' lots' hinv hok p
    have hsum := create_sale_ok_sum hok p
    have h0 := hinv p
    rw [lineDeliveredSum_append, lineDeliveredSum_singleton]
    omega
  · intro products pre post sale lots u sale' lots' hinv hnn hok p
    have hsum := update_sale_ok_sum hok hnn p
    have h0 := hinv p
    rw [lineDeliveredSum_append, lineDeliveredSum_cons] at h0 ⊢
    omega
  · intro pre post sale lots lots' hinv hnn hok p
    have hsum := delete_sale_ok_sum hok hnn p
    have h0 := hinv p
    rw [lineDeliveredSum_append, lineDeliveredSum_cons] at h0
    rw [lineDeliveredSum_append]
    omega

/-- Concrete input for the C1 witness: a catalog sale of one unit, not
delivered, starting from an empty ledger. -/
def C1data : CreateSaleData :=
  { customerName := none, notes := none, installments := none, seller := none,
    delivered := false, paid := false,
    items := [{ productId := some 1, productName := none, quantity := 1,
                unitPrice := 1, delivered := none, paid := none,
                deliveredQuantity := none }] }

/-- The sale row `create_sale` commits for `C1data`. -/
def C1sale : SaleRow :=
  { id := 1, createdAt := 0, customerName := none, notes := none,
    installments := none, seller := none, delivered := false, paid := false,
    totalAmount := 1, deliveredAmount := 0, paidAmount := 0,
    items := [{ productId := some 1, manualProductName := none, quantity := 1,
                deliveredQuantity := 0, isPaid := false, unitPrice := 1,
                totalPrice := 1 }] }

/-- Witness for C1: the create part applied at `C1data` on an empty ledger. -/
theorem C1_settled_stock_invariant_witness :
    stockInvariant ([] : List SaleRow) ([] : List StockPurchase) ∧
    create_sale [1] [] 1 0 C1data = .ok (C1sale, []) ∧
    stockInvariant ([] ++ [C1sale]) [] := by
  have hok : create_sale [1] [] 1 0 C1data = .ok (C1sale, []) := by
    norm_num [create_sale, normalize_items, normalizeLoop, resolveItemRef,
      normalizedOf, deliveredFlagOf, paidFlagOf, apply_item_states, applyLoop,
      applyStock, targetQty, targetDelivered, currentDelivered, newPaid,
      refLookup, itemRefOf, sync_sale_state, deliveredFull, lineTotal,
      deliveryTargetsOf, paidTargetsOf, freshSaleItem, C1data, C1sale,
      quantize2_zero, quantize2_one]
  exact ⟨fun _ => rfl, hok,
    C1_settled_stock_invariant.1 [1] [] [] 1 0 C1data C1sale []
      (fun _ => rfl) hok⟩

/-- **C2**: with enough availability, `_deduct_stock` succeeds and performs
exactly the oldest-first walk of the spec (`specFifoWalk`, stated on the
`(purchase_date ASC, lot_id ASC)`-ordered lot list), consuming
`min(lot.available, remaining)` per lot; and on the spec's concrete FIFO
example — L1(2024-01-01, qty 5), L2(2024-01-05, qty 5), `deduct(P, 7)` —
it consumes all 5 of L1 and then 2 of L2. -/
theorem C2_fifo_deduction :
    (∀ (p q : Int) (lots : List StockPurchase),
        lotsSortedAsc lots = true →
        (∀ l ∈ lots, lotWF l) →
        0 < q → q ≤ get_available_stock (some p) lots →
        deduct_stock (some p) lots q = .ok (specFifoWalk p lots q)) ∧
    deduct_stock (some 1)
      [⟨1, some 1, 20240101, 5, 0⟩, ⟨2, some 1, 20240105, 5, 0⟩] 7 =
      .ok [⟨1, some 1, 20240101, 5, 5⟩, ⟨2, some 1, 20240105, 5, 2⟩] := by
  constructor
  · intro p q lots hsorted hwf hq hav
    exact deduct_stock_ok_of_available
      (fun l hl _ => (hwf l hl).2) hq hav
  · decide

/-- Witness for C2: the general FIFO theorem applied at the spec's example. -/
theorem C2_fifo_deduction_witness :
    lotsSortedAsc
        [⟨1, some 1, 20240101, 5, 0⟩, ⟨2, some 1, 20240105, 5, 0⟩] = true ∧
    (∀ l ∈ ([⟨1, some 1, 20240101, 5, 0⟩,
             ⟨2, some 1, 20240105, 5, 0⟩] : List StockPurchase), lotWF l) ∧
    (0 : Int) < 7 ∧
    (7 : Int) ≤ get_available_stock (some 1)
        [⟨1, some 1, 20240101, 5, 0⟩, ⟨2, some 1, 20240105, 5, 0⟩] ∧
    deduct_stock (some 1)
        [⟨1, some 1, 20240101, 5, 0⟩, ⟨2, some 1, 20240105, 5, 0⟩] 7 =
      .ok (specFifoWalk 1
        [⟨1, some 1, 20240101, 5, 0⟩, ⟨2, some 1, 20240105, 5, 0⟩] 7) :=
  ⟨by decide, by decide, by decide, by decide,
    C2_fifo_deduction.1 1 7
      [⟨1, some 1, 20240101, 5, 0⟩, ⟨2, some 1, 20240105, 5, 0⟩]
      (by decide) (by decide) (by decide) (by decide)⟩

/-- **C3**: when the requested quantity does not exceed the total allocated
(`Σ out_quantity`), `_restore_stock` succeeds and performs exactly the
most-recent-first walk of the spec (`specLifoWalk` on the reversed, i.e.
`(purchase_date DESC, lot_id DESC)`-ordered, lot list), giving back
`min(lot.out_quantity, remaining)` per lot; and the spec's concrete LIFO
example — after the FIFO example, `restore(P, 3)` — returns 2 to L2
(out 2 → 0) and then 1 to L1 (out 5 → 4). -/
theorem C3_lifo_restore :
    (∀ (p q : Int) (lots : List StockPurchase),
        lotsSortedAsc lots = true →
        (∀ l ∈ lots, lotWF l) →
        0 < q → q ≤ lotOutSum p lots →
        restore_stock (some p) lots q = .ok (specLifoWalk p lots.reverse q).reverse) ∧
    restore_stock (some 1)
      [⟨1, some 1, 20240101, 5, 5⟩, ⟨2, some 1, 20240105, 5, 2⟩] 3 =
      .ok [⟨1, some 1, 20240101, 5, 4⟩, ⟨2, some 1, 20240105, 5, 0⟩] := by
  constructor
  · intro p q lots hsorted hwf hq hout
    exact restore_stock_ok_of_allocated
      (fun l hl _ => (hwf l hl).1) hq hout
  · decide

/-- Witness for C3: the general LIFO theorem applied at the spec's example. -/
theorem C3_lifo_restore_witness :
    lotsSortedAsc
        [⟨1, some 1, 20240101, 5, 5⟩, ⟨2, some 1, 20240105, 5, 2⟩] = true ∧
    (∀ l ∈ ([⟨1, some 1, 20240101, 5, 5⟩,
             ⟨2, some 1, 20240105, 5, 2⟩] : List StockPurchase), lotWF l) ∧
    (0 : Int) < 3 ∧
    (3 : Int) ≤ lotOutSum 1
        [⟨1, some 1, 20240101, 5, 5⟩, ⟨2, some 1, 20240105, 5, 2⟩] ∧
    restore_stock (some 1)
        [⟨1, some 1, 20240101, 5, 5⟩, ⟨2, some 1, 20240105, 5, 2⟩] 3 =
      .ok (specLifoWalk 1
        ([⟨1, some 1, 20240101, 5, 5⟩,
          ⟨2, some 1, 20240105, 5, 2⟩] : List StockPurchase).reverse 3).reverse :=
  ⟨by decide, by decide, by decide, by decide,
    C3_lifo_restore.1 1 3
      [⟨1, some 1, 20240101, 5, 5⟩, ⟨2, some 1, 20240105, 5, 2⟩]
      (by decide) (by decide) (by decide) (by decide)⟩

/-- **C4**: with `available < q` (and `q > 0`), `_deduct_stock` raises the
insufficient-stock `ValidationError` carrying the product id, the computed
availability and the request.  In this embedding an `.error` result carries
no post-state: the transaction is rolled back and every lot is left exactly
as it was, which is why the conclusion is the bare error value. -/
theorem C4_insufficient_stock :
    ∀ (p q : Int) (lots : List StockPurchase),
      0 < q → get_available_stock (some p) lots < q →
      deduct_stock (some p) lots q =
        .error (.insufficientStock p (get_available_stock (some p) lots) q) :=
  fun _ _ _ hq hav => deduct_stock_insufficient hq hav

/-- Witness for C4: deducting 11 from two lots holding 10 available. -/
theorem C4_insufficient_stock_witness :
    (0 : Int) < 11 ∧
    get_available_stock (some 1)
        [⟨1, some 1, 20240101, 5, 0⟩, ⟨2, some 1, 20240105, 5, 0⟩] < 11 ∧
    deduct_stock (some 1)
        [⟨1, some 1, 20240101, 5, 0⟩, ⟨2, some 1, 20240105, 5, 0⟩] 11 =
      .error (.insufficientStock 1
        (get_available_stock (some 1)
          [⟨1, some 1, 20240101, 5, 0⟩, ⟨2, some 1, 20240105, 5, 0⟩]) 11) :=
  ⟨by decide, by decide,
    C4_insufficient_stock 1 11
      [⟨1, some 1, 20240101, 5, 0⟩, ⟨2, some 1, 20240105, 5, 0⟩]
      (by decide) (by decide)⟩

/-- **C5**: each operation preserves the bounds `0 ≤ out_quantity ≤ quantity`
on every lot and `0 ≤ delivered_quantity ≤ quantity` on every line — stated
for the allocator primitives, for the three sale mutations and for the
reconciliation run (which rebuilds `out_quantity` from zero *without* the
availability precheck, yet never exceeds any lot's quantity and never
touches a line's `delivered_quantity`).  For `delete_sale` the sale's lines
are removed, so only lots remain to check; the update clause carries the
bounds of the pre-state lines, which the invariant itself guarantees for
reachable states. -/
theorem C5_quantity_bounds :
    (∀ (pidO : Option Int) (lots : List StockPurchase) (q : Int)
        (lots' : List StockPurchase),
        deduct_stock pidO lots q = .ok lots' →
        (∀ l ∈ lots, lotWF l) → ∀ l ∈ lots', lotWF l) ∧
    (∀ (pidO : Option Int) (lots : List StockPurchase) (q : Int)
        (lots' : List StockPurchase),
        restore_stock pidO lots q = .ok lots' →
        (∀ l ∈ lots, lotWF l) → ∀ l ∈ lots', lotWF l) ∧
    (∀ (products : List Int) (lots : List StockPurchase) (nextId createdAt : Int)
        (data : CreateSaleData) (sale' : SaleRow) (lots' : List StockPurchase),
        create_sale products lots nextId createdAt data = .ok (sale', lots') →
        (∀ l ∈ lots, lotWF l) →
        (∀ l ∈ lots', lotWF l) ∧ (∀ it ∈ sale'.items, lineWF it)) ∧
    (∀ (products : List Int) (sale : SaleRow) (lots : List StockPurchase)
        (u : UpdateSaleData) (sale' : SaleRow) (lots' : List StockPurchase),
        update_sale products sale lots u = .ok (sale', lots') →
        (∀ l ∈ lots, lotWF l) →
        (∀ it ∈ sale.items, lineWF it) →
        (∀ l ∈ lots', lotWF l) ∧ (∀ it ∈ sale'.items, lineWF it)) ∧
    (∀ (sale : SaleRow) (lots lots' : List StockPurchase),
        delete_sale sale lots = .ok lots' →
        (∀ l ∈ lots, lotWF l) → ∀ l ∈ lots', lotWF l) ∧
    (∀ (sales : List SaleRow) (lots : List StockPurchase),
        (∀ l ∈ lots, lotWF l) →
        (∀ s ∈ sales, ∀ it ∈ s.items, lineWF it) →
        (∀ l ∈ (reconcile_delivered_stock sales lots).2.1, lotWF l) ∧
        (∀ s ∈ (reconcile_delivered_stock sales lots).1,
          ∀ it ∈ s.items, lineWF it)) := by
  refine ⟨?_, ?_, ?_, ?_, ?_, ?_⟩
  · intro pidO lots q lots' h hwf
    exact deduct_stock_ok_wf h hwf
  · intro pidO lots q lots' h hwf
    exact restore_stock_ok_wf h hwf
  · intro products lots nextId createdAt data sale' lots' h hwf
    exact create_sale_ok_wf h hwf
  · intro products sale lots u sale' lots' h hwf hlines
    exact update_sale_ok_wf h hwf hlines
  · intro sale lots lots' h hwf
    exact delete_sale_ok_wf h hwf
  · intro sales lots hwf hlines
    exact ⟨reconcile_delivered_stock_lotWF hwf,
      reconcile_delivered_stock_lineWF hlines⟩

/-- A concrete sale (one fully delivered quantity-2 line) for the C5
witness's reconciliation clause. -/
def C5sale : SaleRow :=
  { id := 1, createdAt := 0, customerName := none, notes := none,
    installments := none, seller := none, delivered := true, paid := false,
    totalAmount := 2, deliveredAmount := 2, paidAmount := 0,
    items := [{ productId := some 1, manualProductName := none, quantity := 2,
                deliveredQuantity := 2, isPaid := false, unitPrice := 1,
                totalPrice := 2 }] }

/-- Witness for C5: the deduct clause applied to a concrete two-lot ledger,
and the reconciliation clause applied to a concrete sale over a drifted
lot. -/
theorem C5_quantity_bounds_witness :
    deduct_stock (some 1)
        [⟨1, some 1, 20240101, 5, 0⟩, ⟨2, some 1, 20240105, 5, 0⟩] 7 =
      .ok [⟨1, some 1, 20240101, 5, 5⟩, ⟨2, some 1, 20240105, 5, 2⟩] ∧
    (∀ l ∈ ([⟨1, some 1, 20240101, 5, 0⟩,
             ⟨2, some 1, 20240105, 5, 0⟩] : List StockPurchase), lotWF l) ∧
    (∀ l ∈ ([⟨1, some 1, 20240101, 5, 5⟩,
             ⟨2, some 1, 20240105, 5, 2⟩] : List StockPurchase), lotWF l) ∧
    (∀ l ∈ ([⟨1, some 1, 20240101, 5, 3⟩] : List StockPurchase), lotWF l) ∧
    (∀ s ∈ ([C5sale] : List SaleRow), ∀ it ∈ s.items, lineWF it) ∧
    ((∀ l ∈ (reconcile_delivered_stock [C5sale]
        [⟨1, some 1, 20240101, 5, 3⟩]).2.1, lotWF l) ∧
     (∀ s ∈ (reconcile_delivered_stock [C5sale]
        [⟨1, some 1, 20240101, 5, 3⟩]).1, ∀ it ∈ s.items, lineWF it)) :=
  ⟨by decide, by decide,
    C5_quantity_bounds.1 (some 1)
      [⟨1, some 1, 20240101, 5, 0⟩, ⟨2, some 1, 20240105, 5, 0⟩] 7
      [⟨1, some 1, 20240101, 5, 5⟩, ⟨2, some 1, 20240105, 5, 2⟩]
      (by decide) (by decide),
    by decide, by decide,
    C5_quantity_bounds.2.2.2.2.2 [C5sale] [⟨1, some 1, 20240101, 5, 3⟩]
      (by decide) (by decide)⟩

/-- **C6 (counterexample)**: the claim promises a
`setDeliveredQuantity(line, targetQty)` for *any* `targetQty ∈ [0, quantity]`
— e.g. 4 on a line with quantity 10 — but the code's only line-state entry
point (`_apply_item_states`) resolves a *boolean* delivery target and sets
`delivered_quantity` to `qty` or `0`.  No choice of delivery/payment target
dicts can leave `delivered_quantity = 4` on a quantity-10 line, even with
ample stock. -/
theorem C6_counterexample :
    ¬ ∃ (dt pt : Option (List (ItemRef × Bool))) (items' : List SaleItemRow)
        (lots' : List StockPurchase),
        applyLoop dt pt
          [{ productId := some 1, manualProductName := none, quantity := 10,
             deliveredQuantity := 0, isPaid := false, unitPrice := 100,
             totalPrice := 1000 }]
          [⟨1, some 1, 20240101, 10, 0⟩] = .ok (items', lots') ∧
        ∃ it ∈ items', it.deliveredQuantity = 4 := by
  rintro ⟨dt, pt, items', lots', h, it, hit, h4⟩
  have hdq := applyLoop_ok_dq _ _ _ _ _ _ h it hit
  obtain ⟨it0, hmem0, hq0⟩ := applyLoop_ok_quantity _ _ _ _ _ _ h it hit
  have : it0.quantity = 10 := by
    rcases List.mem_cons.1 hmem0 with hh | hh
    · rw [hh]
    · exact absurd hh (by simp)
  omega

/-- **C6 (amended)**: delivery targets applied by `_apply_item_states` are
boolean, so the applied target quantity is the full line quantity or 0; the
application moves the product's total `out_quantity` by exactly
`delta = targetQty − delivered_quantity` per line (deduct when positive,
restore when negative, nothing at zero) and stores `delivered_quantity =
targetQty`; consequently two successive applications net to the single
combined delta on every product's lot total, with no residual effect. -/
theorem C6_boolean_delta_targets :
    (∀ (dt pt : Option (List (ItemRef × Bool))) (items items' : List SaleItemRow)
        (lots lots' : List StockPurchase),
        applyLoop dt pt items lots = .ok (items', lots') →
        (∀ it ∈ items', it.deliveredQuantity = 0 ∨
          it.deliveredQuantity = it.quantity) ∧
        (∀ p : Int, lotOutSum p lots' + itemsDeliveredSum p items =
          lotOutSum p lots + itemsDeliveredSum p items')) ∧
    (∀ (dt1 pt1 dt2 pt2 : Option (List (ItemRef × Bool)))
        (items items1 items2 : List SaleItemRow)
        (lots lots1 lots2 : List StockPurchase),
        applyLoop dt1 pt1 items lots = .ok (items1, lots1) →
        applyLoop dt2 pt2 items1 lots1 = .ok (items2, lots2) →
        ∀ p : Int, lotOutSum p lots2 + itemsDeliveredSum p items =
          lotOutSum p lots + itemsDeliveredSum p items2) := by
  constructor
  · intro dt pt items items' lots lots' h
    exact ⟨applyLoop_ok_dq _ _ _ _ _ _ h, applyLoop_ok_sum _ _ _ _ _ _ h⟩
  · intro dt1 pt1 dt2 pt2 items items1 items2 lots lots1 lots2 h1 h2 p
    have s1 := applyLoop_ok_sum _ _ _ _ _ _ h1 p
    have s2 := applyLoop_ok_sum _ _ _ _ _ _ h2 p
    omega

/-- Witness for the amended C6: deliver-then-undeliver a quantity-2 line;
the two applications net to zero change on the lot ledger. -/
theorem C6_boolean_delta_targets_witness :
    applyLoop (some [(ItemRef.product 1, true)]) none
        [{ productId := some 1, manualProductName := none, quantity := 2,
           deliveredQuantity := 0, isPaid := false, unitPrice := 100,
           totalPrice := 200 }]
        [⟨1, some 1, 20240101, 5, 0⟩] =
      .ok ([{ productId := some 1, manualProductName := none, quantity := 2,
              deliveredQuantity := 2, isPaid := false, unitPrice := 100,
              totalPrice := 200 }],
           [⟨1, some 1, 20240101, 5, 2⟩]) ∧
    applyLoop (some [(ItemRef.product 1, false)]) none
        [{ productId := some 1, manualProductName := none, quantity := 2,
           deliveredQuantity := 2, isPaid := false, unitPrice := 100,
           totalPrice := 200 }]
        [⟨1, some 1, 20240101, 5, 2⟩] =
      .ok ([{ productId := some 1, manualProductName := none, quantity := 2,
              deliveredQuantity := 0, isPaid := false, unitPrice := 100,
              totalPrice := 200 }],
           [⟨1, some 1, 20240101, 5, 0⟩]) ∧
    (∀ p : Int,
      lotOutSum p [⟨1, some 1, 20240101, 5, 0⟩] +
        itemsDeliveredSum p
          [{ productId := some 1, manualProductName := none, quantity := 2,
             deliveredQuantity := 0, isPaid := false, unitPrice := 100,
             totalPrice := 200 }] =
      lotOutSum p [⟨1, some 1, 20240101, 5, 0⟩] +
        itemsDeliveredSum p
          [{ productId := some 1, manualProductName := none, quantity := 2,
             deliveredQuantity := 0, isPaid := false, unitPrice := 100,
             totalPrice := 200 }]) :=
  ⟨by decide, by decide,
    C6_boolean_delta_targets.2 (some [(ItemRef.product 1, true)]) none
      (some [(ItemRef.product 1, false)]) none
      [{ productId := some 1, manualProductName := none, quantity := 2,
         deliveredQuantity := 0, isPaid := false, unitPrice := 100,
         totalPrice := 200 }]
      [{ productId := some 1, manualProductName := none, quantity := 2,
         deliveredQuantity := 2, isPaid := false, unitPrice := 100,
         totalPrice := 200 }]
      [{ productId := some 1, manualProductName := none, quantity := 2,
         deliveredQuantity := 0, isPaid := false, unitPrice := 100,
         totalPrice := 200 }]
      [⟨1, some 1, 20240101, 5, 0⟩]
      [⟨1, some 1, 20240101, 5, 2⟩]
      [⟨1, some 1, 20240101, 5, 0⟩]
      (by decide) (by decide)⟩

/-- **C7**: `_sync_sale_state` recomputes the sale aggregate from its lines:
`delivered_amount` sums `total_price` over fully delivered lines,
`paid_amount` over paid lines, and the `delivered`/`paid` flags hold exactly
when the sale has lines and every line is fully delivered / paid.  The
hypotheses are facts every stored line satisfies (positive quantity and
`delivered_quantity ≤ quantity` per the normalisation/application paths,
cent-precision `total_price` per the `Numeric(…, 2)` column); under them the
code's `delivered_quantity >= quantity` test coincides with the claim's
equality test. -/
theorem C7_sale_aggregate_sync :
    ∀ s : SaleRow,
      (∀ it ∈ s.items, 0 < it.quantity) →
      (∀ it ∈ s.items, it.deliveredQuantity ≤ it.quantity) →
      (∀ it ∈ s.items, CentValued it.totalPrice) →
      (sync_sale_state s).deliveredAmount =
        ((s.items.filter (fun it => it.deliveredQuantity = it.quantity)).map
          (·.totalPrice)).sum ∧
      (sync_sale_state s).paidAmount =
        ((s.items.filter (·.isPaid)).map (·.totalPrice)).sum ∧
      ((sync_sale_state s).delivered = true ↔
        s.items ≠ [] ∧ ∀ it ∈ s.items, it.deliveredQuantity = it.quantity) ∧
      ((sync_sale_state s).paid = true ↔
        s.items ≠ [] ∧ ∀ it ∈ s.items, it.isPaid = true) := by
  intro s hpos hle hcent
  have hfilter : s.items.filter deliveredFull =
      s.items.filter (fun it => it.deliveredQuantity = it.quantity) := by
    apply List.filter_congr
    intro it hit
    exact deliveredFull_eq_decide (hpos it hit) (hle it hit)
  refine ⟨?_, ?_, ?_, ?_⟩
  · show quantize2 (((s.items.filter deliveredFull).map lineTotal).sum) = _
    rw [hfilter]
    rw [List.map_congr_left (fun it hit =>
      lineTotal_eq_totalPrice (hcent it (List.mem_of_mem_filter hit)))]
    exact quantize2_centValued (CentValued.list_sum (by
      intro x hx
      obtain ⟨it, hit, rfl⟩ := List.mem_map.1 hx
      exact hcent it (List.mem_of_mem_filter hit)))
  · show quantize2 (((s.items.filter (·.isPaid)).map lineTotal).sum) = _
    rw [List.map_congr_left (fun it hit =>
      lineTotal_eq_totalPrice (hcent it (List.mem_of_mem_filter hit)))]
    exact quantize2_centValued (CentValued.list_sum (by
      intro x hx
      obtain ⟨it, hit, rfl⟩ := List.mem_map.1 hx
      exact hcent it (List.mem_of_mem_filter hit)))
  · show (!s.items.isEmpty && s.items.all deliveredFull) = true ↔ _
    rw [Bool.and_eq_true, List.all_eq_true]
    constructor
    · rintro ⟨hne, hall⟩
      refine ⟨by simpa [List.isEmpty_iff] using hne, ?_⟩
      intro it hit
      have := hall it hit
      rw [deliveredFull_eq_decide (hpos it hit) (hle it hit)] at this
      simpa using this
    · rintro ⟨hne, hall⟩
      refine ⟨by simpa [List.isEmpty_iff] using hne, ?_⟩
      intro it hit
      rw [deliveredFull_eq_decide (hpos it hit) (hle it hit)]
      simpa using hall it hit
  · show (!s.items.isEmpty && s.items.all (·.isPaid)) = true ↔ _
    rw [Bool.and_eq_true, List.all_eq_true]
    constructor
    · rintro ⟨hne, hall⟩
      exact ⟨by simpa [List.isEmpty_iff] using hne, hall⟩
    · rintro ⟨hne, hall⟩
      exact ⟨by simpa [List.isEmpty_iff] using hne, hall⟩

/-- Witness for C7: a one-line sale, fully delivered and paid. -/
theorem C7_sale_aggregate_sync_witness :
    (∀ it ∈ ([{ productId := some 1, manualProductName := none, quantity := 1,
                deliveredQuantity := 1, isPaid := true, unitPrice := 1,
                totalPrice := 1 }] : List SaleItemRow), 0 < it.quantity) ∧
    (∀ it ∈ ([{ productId := some 1, manualProductName := none, quantity := 1,
                deliveredQuantity := 1, isPaid := true, unitPrice := 1,
                totalPrice := 1 }] : List SaleItemRow),
        it.deliveredQuantity ≤ it.quantity) ∧
    ((sync_sale_state
        { id := 1, createdAt := 0, customerName := none, notes := none,
          installments := none, seller := none, delivered := false,
          paid := false, totalAmount := 1, deliveredAmount := 0,
          paidAmount := 0,
          items := [{ productId := some 1, manualProductName := none,
                      quantity := 1, deliveredQuantity := 1, isPaid := true,
                      unitPrice := 1, totalPrice := 1 }] }).delivered = true ↔
      ([{ productId := some 1, manualProductName := none, quantity := 1,
          deliveredQuantity := 1, isPaid := true, unitPrice := 1,
          totalPrice := 1 }] : List SaleItemRow) ≠ [] ∧
        ∀ it ∈ ([{ productId := some 1, manualProductName := none,
                   quantity := 1, deliveredQuantity := 1, isPaid := true,
                   unitPrice := 1, totalPrice := 1 }] : List SaleItemRow),
          it.deliveredQuantity = it.quantity) :=
  ⟨by decide, by decide,
    (C7_sale_aggregate_sync
      { id := 1, createdAt := 0, customerName := none, notes := none,
        installments := none, seller := none, delivered := false,
        paid := false, totalAmount := 1, deliveredAmount := 0, paidAmount := 0,
        items := [{ productId := some 1, manualProductName := none,
                    quantity := 1, deliveredQuantity := 1, isPaid := true,
                    unitPrice := 1, totalPrice := 1 }] }
      (by decide) (by decide)
      (by
        intro it hit
        exact ⟨100, by
          have : it.totalPrice = 1 := by
            rcases List.mem_cons.1 hit with hh | hh
            · rw [hh]
            · exact absurd hh (by simp)
          rw [this]
          norm_num⟩)).2.2.1⟩

/-- **C8**: running `reconcile_delivered_stock` twice with no intervening
sale mutations yields identical lot states (every `out_quantity` equal) and
an identical, non-accumulating report (`sales_processed`, `units_requested`,
`units_deducted` and the `shortages` list all coincide; in particular the
second run's shortages do not grow). -/
theorem C8_reconcile_idempotent :
    ∀ (sales : List SaleRow) (lots : List StockPurchase),
      (reconcile_delivered_stock (reconcile_delivered_stock sales lots).1
        (reconcile_delivered_stock sales lots).2.1).2.1 =
        (reconcile_delivered_stock sales lots).2.1 ∧
      (reconcile_delivered_stock (reconcile_delivered_stock sales lots).1
        (reconcile_delivered_stock sales lots).2.1).2.2 =
        (reconcile_delivered_stock sales lots).2.2 := by
  intro sales lots
  unfold reconcile_delivered_stock
  simp only []
  have hfst := reconcileSales_fst sales
    ⟨lots.map resetOut, 0, 0, []⟩
  have hreset := reconcileSales_lots_reset sales
    ⟨lots.map resetOut, 0, 0, []⟩
  simp only [] at hreset
  rw [map_reset_idem] at hreset
  rw [hfst, hreset]
  rw [reconcileSales_snd_map_sync sales ⟨lots.map resetOut, 0, 0, []⟩]
  constructor
  · rfl
  · simp [List.length_map, hfst]

/-- **C9**: `get_stock_summary_detailed` is a pure read (in this embedding a
function of the current rows that returns only the summary map — no lot,
line or product row appears in the result, so nothing is modified), and for
every requested product id it reports `stock_qty = Σ (quantity −
out_quantity)` over the product's lots, `reserved_qty = Σ max(quantity −
delivered_quantity, 0)` and `reserved_sale_value = Σ max(quantity −
delivered_quantity, 0) × unit_price` over the product's sale lines, and the
product's original price. -/
theorem C9_stock_summary_detailed :
    ∀ (products : List ProductRow) (lots : List StockPurchase)
      (saleItems : List SaleItemRow) (productIds : List Int) (pid : Int),
      pid ∈ productIds →
      (get_stock_summary_detailed products lots saleItems productIds).lookup pid =
        some { stockQty := ((lots.filter (fun l => l.productId = some pid)).map
                 (fun l => l.quantity - l.outQuantity)).sum,
               reservedQty := ((saleItems.filter
                 (fun it => it.productId = some pid)).map
                 (fun it => max (it.quantity - it.deliveredQuantity) 0)).sum,
               originalPrice := originalPriceOf products pid,
               reservedSaleValue := ((saleItems.filter
                 (fun it => it.productId = some pid)).map
                 (fun it => ((max (it.quantity - it.deliveredQuantity) 0 : Int) : ℚ) *
                   it.unitPrice)).sum } := by
  intro products lots saleItems productIds pid hmem
  unfold get_stock_summary_detailed
  have hmem2 : pid ∈ productIds.dedup.mergeSort (fun a b => a ≤ b) := by
    rw [List.mem_mergeSort]
    exact List.mem_dedup.2 hmem
  exact lookup_map_pair _ _ pid hmem2

/-- Concrete rows for the C9 witness. -/
def C9prod : ProductRow := { id := 3, originalPrice := 7 }

/-- Concrete lot for the C9 witness. -/
def C9lot : StockPurchase := ⟨1, some 3, 20240101, 5, 2⟩

/-- Concrete sale line for the C9 witness. -/
def C9item : SaleItemRow :=
  { productId := some 3, manualProductName := none, quantity := 4,
    deliveredQuantity := 1, isPaid := false, unitPrice := 9, totalPrice := 36 }

/-- Witness for C9: one product, one lot, one open line. -/
theorem C9_stock_summary_detailed_witness :
    (3 : Int) ∈ [3] ∧
    (get_stock_summary_detailed [C9prod] [C9lot] [C9item] [3]).lookup 3 =
      some { stockQty := (([C9lot].filter (fun l => l.productId = some 3)).map
               (fun l => l.quantity - l.outQuantity)).sum,
             reservedQty := (([C9item].filter
               (fun it => it.productId = some 3)).map
               (fun it => max (it.quantity - it.deliveredQuantity) 0)).sum,
             originalPrice := originalPriceOf [C9prod] 3,
             reservedSaleValue := (([C9item].filter
               (fun it => it.productId = some 3)).map
               (fun it => ((max (it.quantity - it.deliveredQuantity) 0 : Int) : ℚ) *
                 it.unitPrice)).sum } :=
  ⟨by decide,
    C9_stock_summary_detailed [C9prod] [C9lot] [C9item] [3] 3 (by decide)⟩

/-- **C10**: through the sale-mutation entry points a line's
`delivered_quantity` is always stored as 0 or the full line quantity:
`_normalize_items` coerces any requested positive delivered quantity to full
delivery, and `_apply_item_states` applies boolean targets (full or zero).
Stated for normalisation, `create_sale` and `update_sale` (whose no-op
branch preserves the property of the pre-state); `delete_sale` removes the
sale's lines altogether, leaving none to violate the property. -/
theorem C10_all_or_nothing_delivery :
    (∀ (products : List Int) (rawItems : List RawItem) (fd fp : Option Bool)
        (items : List NormalizedItem) (total : ℚ),
        normalize_items products rawItems fd fp = .ok (items, total) →
        ∀ it ∈ items,
          it.deliveredQuantity = 0 ∨ it.deliveredQuantity = it.quantity) ∧
    (∀ (products : List Int) (lots : List StockPurchase) (nextId createdAt : Int)
        (data : CreateSaleData) (sale' : SaleRow) (lots' : List StockPurchase),
        create_sale products lots nextId createdAt data = .ok (sale', lots') →
        ∀ it ∈ sale'.items,
          it.deliveredQuantity = 0 ∨ it.deliveredQuantity = it.quantity) ∧
    (∀ (products : List Int) (sale : SaleRow) (lots : List StockPurchase)
        (u : UpdateSaleData) (sale' : SaleRow) (lots' : List StockPurchase),
        update_sale products sale lots u = .ok (sale', lots') →
        (∀ it ∈ sale.items,
          it.deliveredQuantity = 0 ∨ it.deliveredQuantity = it.quantity) →
        ∀ it ∈ sale'.items,
          it.deliveredQuantity = 0 ∨ it.deliveredQuantity = it.quantity) := by
  refine ⟨?_, ?_, ?_⟩
  · intro products rawItems fd fp items total h it hit
    exact (normalize_items_ok_items h it hit).2
  · intro products lots nextId createdAt data sale' lots' h
    exact create_sale_ok_dq h
  · intro products sale lots u sale' lots' h hpre
    exact update_sale_ok_dq h hpre

/-- Witness for C10: a raw item requesting a strictly partial
`delivered_quantity = 1` on a quantity-2 line is normalised to full
delivery (`delivered_quantity = 2`). -/
theorem C10_all_or_nothing_delivery_witness :
    normalize_items [1]
        [{ productId := some 1, productName := none, quantity := 2,
           unitPrice := 1, delivered := none, paid := none,
           deliveredQuantity := some 1 }] none none =
      .ok ([{ itemRef := .product 1, productId := some 1,
              manualProductName := none, quantity := 2,
              deliveredQuantity := 2, isPaid := false, unitPrice := 1,
              totalPrice := 2 }], 2) ∧
    (∀ it ∈ ([{ itemRef := .product 1, productId := some 1,
                manualProductName := none, quantity := 2,
                deliveredQuantity := 2, isPaid := false, unitPrice := 1,
                totalPrice := 2 }] : List NormalizedItem),
        it.deliveredQuantity = 0 ∨ it.deliveredQuantity = it.quantity) := by
  have hok : normalize_items [1]
      [{ productId := some 1, productName := none, quantity := 2,
         unitPrice := 1, delivered := none, paid := none,
         deliveredQuantity := some 1 }] none none =
      .ok ([{ itemRef := .product 1, productId := some 1,
              manualProductName := none, quantity := 2,
              deliveredQuantity := 2, isPaid := false, unitPrice := 1,
              totalPrice := 2 }], 2) := by
    norm_num [normalize_items, normalizeLoop, resolveItemRef, normalizedOf,
      deliveredFlagOf, paidFlagOf, quantize2_two]
  exact ⟨hok,
    C10_all_or_nothing_delivery.1 [1]
      [{ productId := some 1, productName := none, quantity := 2,
         unitPrice := 1, delivered := none, paid := none,
         deliveredQuantity := some 1 }] none none
      [{ itemRef := .product 1, productId := some 1, manualProductName := none,
         quantity := 2, deliveredQuantity := 2, isPaid := false,
         unitPrice := 1, totalPrice := 2 }] 2 hok⟩
